import Mathlib

/-!
# KuduScanNode: scanner-thread admission, shutdown and the consumer side

A shallow embedding of `be/src/exec/kudu-scan-node.cc`.

* Every block of the source that runs under `lock_` is one atomic transition; one
  iteration of the loop of `ThreadAvailableCb` is such a block.
* The unlocked reads of `done_` inside `RunScannerThread` and `ProcessScanToken`
  are separate transitions, so that an interleaving of the scanner threads with the
  admission callback and the consumer is a sequence of transitions.
* A `GetNext` call is one transition: the consumer is a single thread, and of the
  state the other threads read, the call changes only the queue (its dequeue) and
  `done_` (through `SetDone`, which is also a transition of its own).
* Results of external calls (the Kudu scanner, the thread resource pool,
  `Thread::Create`) are inputs of the transition that makes the call. A blocking wait
  is a transition that is not enabled (`GetBatch`) or a refused attempt that is
  retried (`EnqueueBatchWithTimeout`).
* Every transition reports the calls it makes as a list of events, with the points
  where `lock_` is taken and dropped.
* `DCHECK`s, timers and counters are left out.

The row batch queue, the counters of `thread_state_`, the scan-token list of the base
class and `ReachedLimit` are declared outside this file of the source; they are
modelled from the specification and marked so.
-/

namespace KuduScan

/-! ## Basic types -/

/-- The `Status` of an operation: `OK` or an error, identified by a code. -/
inductive Status
  | OK
  | error (code : Nat)
  deriving DecidableEq, Repr

/-- The C++ `Status::ok()`. -/
def Status.ok : Status → Bool
  | .OK => true
  | .error _ => false

/-- A materialized row batch: its rows, in order. -/
structure RowBatch where
  rows : List Nat
  deriving DecidableEq, Repr

/-- The C++ `RowBatch::num_rows()`. -/
def RowBatch.num_rows (b : RowBatch) : Int := (b.rows.length : Int)

/-- The C++ `RowBatch::set_num_rows(n)`: keeps the first `n` rows. -/
def RowBatch.set_num_rows (b : RowBatch) (n : Int) : RowBatch := ⟨b.rows.take n.toNat⟩

/-- Conversion to a 32-bit signed `int` (two's complement wrap-around). -/
def toInt32 (x : Int) : Int := (x + 2147483648) % 4294967296 - 2147483648

/-- Conversion to a 64-bit signed `int64_t` (two's complement wrap-around). -/
def toInt64 (x : Int) : Int :=
  (x + 9223372036854775808) % 18446744073709551616 - 9223372036854775808

/-- Calls and lock operations a transition performs, in program order. -/
inductive Event
  | lock
  | unlock
  | AcquireThreadToken
  | TryAcquireThreadToken (granted : Bool)
  | optional_exceeded (exceeded : Bool)
  | GetNextScanToken (thread : Nat) (token : Nat)
  | ThreadCreate (first_thread : Bool) (token : Option Nat) (status : Status)
  | AddThread
  | ReleaseThreadToken (required : Bool) (skip_callbacks : Bool)
  | ScannerCall (status : Status)
  | Enqueue (accepted : Bool)
  | SetDone
  | Shutdown
  deriving DecidableEq, Repr

/-! ## The batch queue -/

/-- Modelled from the spec: the row batch queue of `thread_state_` (the class is
declared outside the source files): a capacity, the buffered batches in FIFO order
and a shutdown flag. -/
structure RowBatchQueue where
  capacity : Nat
  contents : List RowBatch
  shutdown : Bool
  deriving DecidableEq, Repr

/-- Modelled from the spec: queue shutdown, after which no enqueue succeeds. -/
def RowBatchQueue.Shutdown (q : RowBatchQueue) : RowBatchQueue :=
  { q with shutdown := true }

/-- Modelled from the spec: the blocking dequeue `GetBatch()`. `none` means the caller
is still blocked (nothing buffered, queue not shut down); `some (none, _)` is the
"closed" answer (a null batch); buffered batches are drained also after shutdown. -/
def RowBatchQueue.GetBatch (q : RowBatchQueue) : Option (Option RowBatch × RowBatchQueue) :=
  match q.contents with
  | b :: rest => some (some b, { q with contents := rest })
  | [] => if q.shutdown then some (none, q) else none

/-- Modelled from the spec: `EnqueueBatchWithTimeout`: the batch is appended when the
queue is not shut down and has room; otherwise the call reports `false` (timed out or
shut down) and the caller keeps the batch. -/
def RowBatchQueue.EnqueueBatchWithTimeout (q : RowBatchQueue) (b : RowBatch) :
    Bool × RowBatchQueue :=
  if q.shutdown || decide (q.capacity ≤ q.contents.length) then (false, q)
  else (true, { q with contents := q.contents ++ [b] })

/-! ## Scanner threads -/

/-- Program points of a scanner thread (`RunScannerThread` with `ProcessScanToken`
inlined). Each point is the next thing the thread does. -/
inductive PC
  | scannerOpen   -- `scanner.Open()`
  | loopTest      -- `while (!done_ && scan_token != nullptr)`
  | openToken     -- `scanner->OpenNextScanToken(scan_token, &eos)`
  | outerTest     -- `while (!eos && !done_)`
  | getNext       -- `scanner->GetNext(row_batch.get(), &eos)`
  | innerTest     -- `while (!done_)`
  | enqueue       -- `KeepKuduScannerAlive(); EnqueueBatchWithTimeout(...)`
  | afterToken    -- `optional_exceeded()` test, then the locked token claim
  | exitBlock     -- `scanner.Close()` and the locked exit block
  | release       -- `ReleaseThreadToken(first_thread)`
  | finished
  deriving DecidableEq, Repr

/-- Local variables of one scanner thread. -/
structure ScannerThread where
  first_thread : Bool
  scan_token : Option Nat
  status : Status
  eos : Bool
  row_batch : Option RowBatch
  pc : PC
  deriving DecidableEq, Repr

/-- What the external calls of one scanner-thread transition return. -/
structure ScanResult where
  status : Status
  eos : Bool
  batch : RowBatch
  optional_exceeded : Bool
  deriving DecidableEq, Repr

/-- A thread has not yet run its exit block (it still counts as active). -/
def ScannerThread.active (w : ScannerThread) : Bool :=
  match w.pc with
  | .release => false
  | .finished => false
  | _ => true

/-! ## The scan node -/

/-- The state of a `KuduScanNode`: `done_`, `status_`, the limit and row counter of the
exec node, the counters, queue and threads of `thread_state_`, and the scan tokens of the
base class with the index of the next one to hand out. A scan token is referred to by
its index (the C++ code passes a pointer into `scan_tokens_`). -/
structure KuduScanNode where
  done_ : Bool
  status_ : Status
  limit_ : Int
  num_rows_returned_ : Int
  num_active : Int
  max_num_scanner_threads : Int
  batch_queue : RowBatchQueue
  scanner_threads : List ScannerThread
  scan_tokens : List Nat
  next_scan_token_idx_ : Nat
  deriving DecidableEq, Repr

/-- The node after `Open`, before the first `ThreadAvailableCb`. -/
def initial (scan_tokens : List Nat) (limit : Int) (max_threads : Int) (capacity : Nat) :
    KuduScanNode :=
  { done_ := false, status_ := .OK, limit_ := limit, num_rows_returned_ := 0,
    num_active := 0, max_num_scanner_threads := max_threads,
    batch_queue := { capacity := capacity, contents := [], shutdown := false },
    scanner_threads := [], scan_tokens := scan_tokens, next_scan_token_idx_ := 0 }

/-- Modelled from the spec: `ReachedLimit()` of the exec node (declared outside the
source files): a row limit is configured (0 means unbounded) and the running row count
has reached it. -/
def ReachedLimit (s : KuduScanNode) : Bool :=
  decide (s.limit_ ≠ 0) && decide (s.limit_ ≤ s.num_rows_returned_)

/-- Modelled from the spec: `NumScanTokens()` of the base class. -/
def NumScanTokens (s : KuduScanNode) : Nat := s.scan_tokens.length

/-- Modelled from the spec: `HasScanToken()` of the base class (`HasMore`). -/
def HasScanToken (s : KuduScanNode) : Bool :=
  decide (s.next_scan_token_idx_ < s.scan_tokens.length)

/-- Modelled from the spec: `GetNextScanToken()` of the base class: the next unclaimed
token (null when exhausted), advancing the index. -/
def GetNextScanToken (s : KuduScanNode) : Option Nat × KuduScanNode :=
  if HasScanToken s then
    (some s.next_scan_token_idx_, { s with next_scan_token_idx_ := s.next_scan_token_idx_ + 1 })
  else (none, s)

/-- Modelled from the spec: `thread_state_.DecrementNumActive()`: decrements the
active-thread counter and reports whether it reached zero. -/
def DecrementNumActive (s : KuduScanNode) : Bool × KuduScanNode :=
  (decide (s.num_active - 1 = 0), { s with num_active := s.num_active - 1 })

/-- Modelled from the spec: `thread_state_.AddThread(t)`: counts the thread as active
and adds it to the thread group. -/
def AddThread (s : KuduScanNode) (t : ScannerThread) : KuduScanNode :=
  { s with num_active := s.num_active + 1, scanner_threads := s.scanner_threads ++ [t] }

/-- `KuduScanNode::SetDoneInternal` (caller holds `lock_`). -/
def SetDoneInternal (s : KuduScanNode) : KuduScanNode × List Event :=
  if s.done_ then (s, [])
  else ({ s with done_ := true, batch_queue := s.batch_queue.Shutdown }, [Event.Shutdown])

/-- `KuduScanNode::SetDone`. -/
def SetDone (s : KuduScanNode) : KuduScanNode × List Event :=
  let r := SetDoneInternal s
  (r.1, [Event.SetDone, Event.lock] ++ r.2 ++ [Event.unlock])

/-- The state after `n` successive `SetDone` calls, with all events. -/
def SetDoneTimes : Nat → KuduScanNode → KuduScanNode × List Event
  | 0, s => (s, [])
  | n + 1, s =>
    let r := SetDone s
    let r2 := SetDoneTimes n r.1
    (r2.1, r.2 ++ r2.2)

/-- What one `GetNext` call hands back: the returned status, `*eos` (`none` when the
call returned before writing it) and the rows now held by the caller's `row_batch`
(`none` when the call did not touch it). -/
structure GetNextResult where
  status : Status
  eos : Option Bool
  row_batch : Option RowBatch
  deriving DecidableEq, Repr

/-- `KuduScanNode::GetNext`. `pre` is the outcome of the entry checks
(`ExecDebugAction`, `RETURN_IF_CANCELLED`, `QueryMaintenance`). The result is `none`
while the call is blocked in `GetBatch()`. -/
def GetNext (pre : Status) (s : KuduScanNode) :
    Option (KuduScanNode × GetNextResult × List Event) :=
  if !pre.ok then some (s, ⟨pre, none, none⟩, [])
  else if ReachedLimit s || decide (NumScanTokens s = 0) then
    some (s, ⟨.OK, some true, none⟩, [])
  else
    match s.batch_queue.GetBatch with
    | none => none
    | some (some materialized_batch, q) =>
      let n := materialized_batch.num_rows
      let s1 := { s with batch_queue := q,
                         num_rows_returned_ := toInt64 (s.num_rows_returned_ + n) }
      if ReachedLimit s1 then
        let num_rows_over := toInt32 (toInt64 (s1.num_rows_returned_ - s1.limit_))
        let row_batch := materialized_batch.set_num_rows (toInt32 (n - num_rows_over))
        let s2 := { s1 with
          num_rows_returned_ := toInt64 (s1.num_rows_returned_ - num_rows_over) }
        let r := SetDone s2
        some (r.1, ⟨r.1.status_, some true, some row_batch⟩,
          r.2 ++ [Event.lock, Event.unlock])
      else
        some (s1, ⟨s1.status_, some false, some materialized_batch⟩,
          [Event.lock, Event.unlock])
    | some (none, q) =>
      some ({ s with batch_queue := q }, ⟨s.status_, some true, none⟩,
        [Event.lock, Event.unlock])

/-- One iteration of the `while (true)` loop of `KuduScanNode::ThreadAvailableCb`.
`try_acquire` is what `TryAcquireThreadToken()` answers and `create` what
`Thread::Create` returns, when called. The Boolean of the result tells whether the
loop goes on to another iteration. -/
def ThreadAvailableIter (try_acquire : Bool) (create : Status) (s : KuduScanNode) :
    KuduScanNode × List Event × Bool :=
  if s.done_ || !HasScanToken s then (s, [Event.lock, Event.unlock], false)
  else
    let first_thread := decide (s.num_active = 0)
    if !first_thread && decide (s.max_num_scanner_threads ≤ s.num_active) then
      (s, [Event.lock, Event.unlock], false)
    else if !first_thread && !try_acquire then
      (s, [Event.lock, Event.TryAcquireThreadToken false, Event.unlock], false)
    else
      let acquire :=
        if first_thread then Event.AcquireThreadToken else Event.TryAcquireThreadToken true
      let thread_idx := s.scanner_threads.length
      -- Reserve the first token so no other thread picks it up.
      let g := GetNextScanToken s
      let claim :=
        match g.1 with
        | some token => [Event.GetNextScanToken thread_idx token]
        | none => []
      let ev := [Event.lock, acquire] ++ claim ++ [Event.ThreadCreate first_thread g.1 create]
      if !create.ok then
        let r := SetDoneInternal { g.2 with status_ := create }
        (r.1, ev ++ [Event.ReleaseThreadToken first_thread true] ++ r.2 ++ [Event.unlock],
          false)
      else
        (AddThread g.2 ⟨first_thread, g.1, .OK, false, none, .scannerOpen⟩,
          ev ++ [Event.AddThread, Event.unlock], true)

/-- `KuduScanNode::ThreadAvailableCb`: the loop, run for at most `fuel` iterations.
Iteration `k` uses `try_acquire k` and `create k`. The result is `none` only when the
fuel runs out before the loop breaks. -/
def ThreadAvailableCb (try_acquire : Nat → Bool) (create : Nat → Status) :
    Nat → KuduScanNode → Option (KuduScanNode × List Event)
  | 0, _ => none
  | fuel + 1, s =>
    match ThreadAvailableIter (try_acquire 0) (create 0) s with
    | (s1, ev, false) => some (s1, ev)
    | (s1, ev, true) =>
      match ThreadAvailableCb (fun k => try_acquire (k + 1)) (fun k => create (k + 1))
          fuel s1 with
      | none => none
      | some (s2, ev2) => some (s2, ev ++ ev2)

/-- The part of a scanner-thread step that lies in `KuduScanNode::ProcessScanToken`.
A return with an error goes to the exit block (the caller breaks out of its loop), a
return with `OK` goes to the point after the call. -/
def ProcessScanToken (r : ScanResult) (s : KuduScanNode) (w : ScannerThread) :
    Option (KuduScanNode × ScannerThread × List Event) :=
  match w.pc with
  | .openToken =>
    if !r.status.ok then
      some (s, { w with status := r.status, pc := .exitBlock }, [Event.ScannerCall r.status])
    else if r.eos then
      some (s, { w with eos := true, status := .OK, pc := .afterToken },
        [Event.ScannerCall r.status])
    else some (s, { w with eos := false, pc := .outerTest }, [Event.ScannerCall r.status])
  | .outerTest =>
    if !w.eos && !s.done_ then some (s, { w with pc := .getNext }, [])
    else some (s, { w with status := .OK, row_batch := none, pc := .afterToken }, [])
  | .getNext =>
    if !r.status.ok then
      some (s, { w with status := r.status, row_batch := none, pc := .exitBlock },
        [Event.ScannerCall r.status])
    else
      some (s, { w with eos := r.eos, row_batch := some r.batch, pc := .innerTest },
        [Event.ScannerCall r.status])
  | .innerTest =>
    if !s.done_ then some (s, { w with pc := .enqueue }, [])
    else some (s, { w with row_batch := none, pc := .outerTest }, [])
  | .enqueue =>
    match w.row_batch with
    | none => none
    | some b =>
      match s.batch_queue.EnqueueBatchWithTimeout b with
      | (true, q) =>
        some ({ s with batch_queue := q }, { w with row_batch := none, pc := .outerTest },
          [Event.Enqueue true])
      | (false, _) => some (s, { w with pc := .innerTest }, [Event.Enqueue false])
  | _ => none

/-- One step of thread `i` running `KuduScanNode::RunScannerThread`. The result is
`none` when the thread has finished. -/
def RunScannerThread (i : Nat) (r : ScanResult) (s : KuduScanNode) (w : ScannerThread) :
    Option (KuduScanNode × ScannerThread × List Event) :=
  match w.pc with
  | .scannerOpen =>
    if r.status.ok then
      some (s, { w with status := r.status, pc := .loopTest }, [Event.ScannerCall r.status])
    else
      some (s, { w with status := r.status, pc := .exitBlock }, [Event.ScannerCall r.status])
  | .loopTest =>
    if !s.done_ && w.scan_token.isSome then some (s, { w with pc := .openToken }, [])
    else some (s, { w with pc := .exitBlock }, [])
  | .afterToken =>
    if !w.first_thread && r.optional_exceeded then
      some (s, { w with pc := .exitBlock }, [Event.optional_exceeded true])
    else
      let ev0 := if w.first_thread then [] else [Event.optional_exceeded false]
      if !s.done_ then
        match GetNextScanToken s with
        | (some token, s1) =>
          some (s1, { w with scan_token := some token, pc := .loopTest },
            ev0 ++ [Event.lock, Event.GetNextScanToken i token, Event.unlock])
        | (none, s1) =>
          some (s1, { w with scan_token := none, pc := .loopTest },
            ev0 ++ [Event.lock, Event.unlock])
      else
        some (s, { w with scan_token := none, pc := .loopTest },
          ev0 ++ [Event.lock, Event.unlock])
  | .exitBlock =>
    let r1 : KuduScanNode × List Event :=
      if !w.status.ok && s.status_.ok then SetDoneInternal { s with status_ := w.status }
      else (s, [])
    let d := DecrementNumActive r1.1
    let r2 : KuduScanNode × List Event := if d.1 then SetDoneInternal d.2 else (d.2, [])
    some (r2.1, { w with pc := .release }, [Event.lock] ++ r1.2 ++ r2.2 ++ [Event.unlock])
  | .release =>
    some (s, { w with pc := .finished }, [Event.ReleaseThreadToken w.first_thread false])
  | .finished => none
  | _ => ProcessScanToken r s w

/-! ## Executions -/

/-- The atomic transitions of a run. -/
inductive Action
  | ThreadAvailable (try_acquire : Bool) (create : Status)
  | Scanner (i : Nat) (r : ScanResult)
  | GetNext (pre : Status)
  | SetDone
  deriving DecidableEq, Repr

/-- One transition: the next state and the events of the transition, or `none` when
the transition is not enabled (no such thread, thread finished, consumer blocked). -/
def step (a : Action) (s : KuduScanNode) : Option (KuduScanNode × List Event) :=
  match a with
  | .ThreadAvailable try_acquire create =>
    let r := ThreadAvailableIter try_acquire create s
    some (r.1, r.2.1)
  | .Scanner i r =>
    match s.scanner_threads[i]? with
    | none => none
    | some w =>
      match RunScannerThread i r s w with
      | none => none
      | some (s1, w1, ev) =>
        some ({ s1 with scanner_threads := s1.scanner_threads.set i w1 }, ev)
  | .GetNext pre =>
    match GetNext pre s with
    | none => none
    | some (s1, _, ev) => some (s1, ev)
  | .SetDone => some (SetDone s)

/-- Runs a schedule of transitions, collecting the events. -/
def run : List Action → KuduScanNode → Option (KuduScanNode × List Event)
  | [], s => some (s, [])
  | a :: rest, s =>
    match step a s with
    | none => none
    | some (s1, ev1) =>
      match run rest s1 with
      | none => none
      | some (s2, ev2) => some (s2, ev1 ++ ev2)

/-- States that some run from some initial node reaches. -/
def Reachable (s : KuduScanNode) : Prop :=
  ∃ (tokens : List Nat) (limit max_threads : Int) (capacity : Nat) (sched : List Action)
    (tr : List Event), run sched (initial tokens limit max_threads capacity) = some (s, tr)

/-- Rows handed back by one `GetNext` call. -/
def GetNextResult.num_rows (res : GetNextResult) : Int :=
  match res.row_batch with
  | some b => b.num_rows
  | none => 0

/-- The consumer: calls `GetNext` (entry checks passing) until a call reports end of
stream, for at most `fuel` calls, and collects what the calls hand back. The result is
`none` when a call blocks or the fuel runs out before end of stream. -/
def pull : Nat → KuduScanNode → Option (List GetNextResult)
  | 0, _ => none
  | fuel + 1, s =>
    match GetNext .OK s with
    | none => none
    | some (s1, res, _) =>
      if res.eos = some true then some [res]
      else
        match pull fuel s1 with
        | none => none
        | some outs => some (res :: outs)

/-- Total number of rows in a list of batches. -/
def totalRows (bs : List RowBatch) : Int := (bs.map RowBatch.num_rows).sum


/-- What holds of every node a run can reach: an error is recorded only with `done_`
set; `done_` comes with the queue shut down; the active-thread counter is the number
of threads that have not run their exit block; and once a thread has been started,
a zero counter means `done_`. -/
structure Inv (s : KuduScanNode) : Prop where
  status_done : s.status_ ≠ .OK → s.done_ = true
  done_shutdown : s.done_ = true → s.batch_queue.shutdown = true
  active_count : s.num_active = (s.scanner_threads.countP ScannerThread.active : Int)
  started_done : s.scanner_threads ≠ [] → s.num_active = 0 → s.done_ = true


/-- What holds along a run in which no call fails and the consumer does not call
`SetDone`: every thread's local status is `OK`; `done_` comes only with all tokens
handed out; the thread started first is the mandatory one, and it has run its exit
block, stands before it or holds no token only when all tokens are handed out. -/
structure DispatchInv (s : KuduScanNode) : Prop where
  local_ok : ∀ w ∈ s.scanner_threads, w.status = .OK
  done_exhausted : s.done_ = true → HasScanToken s = false
  first_thread : ∀ w, s.scanner_threads.head? = some w →
    w.first_thread = true ∧
    ((w.active = false ∨ w.pc = .exitBlock ∨ w.scan_token = none) →
      HasScanToken s = false)

/-! ## Reading traces -/

/-- Calls that acquire or release a thread slot, or create a thread. -/
def Event.isPoolCall : Event → Bool
  | .AcquireThreadToken => true
  | .TryAcquireThreadToken _ => true
  | .ReleaseThreadToken _ _ => true
  | .ThreadCreate _ _ _ => true
  | _ => false

/-- Every slot call and thread creation of the trace is made while `lock_` is not
held; `held` tells whether the lock is held at the start of the trace. -/
def poolCallsUnlocked : Bool → List Event → Bool
  | _, [] => true
  | _, .lock :: rest => poolCallsUnlocked true rest
  | _, .unlock :: rest => poolCallsUnlocked false rest
  | held, e :: rest => (!e.isPoolCall || !held) && poolCallsUnlocked held rest

/-- Every slot call and thread creation of the trace is made while `lock_` is held. -/
def poolCallsLocked : Bool → List Event → Bool
  | _, [] => true
  | _, .lock :: rest => poolCallsLocked true rest
  | _, .unlock :: rest => poolCallsLocked false rest
  | held, e :: rest => (!e.isPoolCall || held) && poolCallsLocked held rest

/-- Whether `lock_` is held after the trace, given whether it is held before. -/
def lockAfter : Bool → List Event → Bool
  | held, [] => held
  | _, .lock :: rest => lockAfter true rest
  | _, .unlock :: rest => lockAfter false rest
  | held, _ :: rest => lockAfter held rest

/-- Attempts to start a thread. -/
def Event.isThreadCreate : Event → Bool
  | .ThreadCreate _ _ _ => true
  | _ => false

/-- Calls that returned an error: a failed thread start or a failed scanner call. -/
def Event.isError : Event → Bool
  | .ThreadCreate _ _ st => !st.ok
  | .ScannerCall st => !st.ok
  | _ => false

/-- The token claims of a trace, in order: the token and the thread it went to. -/
def claimedTokens : List Event → List (Nat × Nat)
  | [] => []
  | .GetNextScanToken thread token :: rest => (token, thread) :: claimedTokens rest
  | _ :: rest => claimedTokens rest

/-! ## Concrete runs -/

/-- A batch of seven rows. -/
def batch7 : RowBatch := ⟨[1, 2, 3, 4, 5, 6, 7]⟩

/-- A batch of five rows. -/
def batch5 : RowBatch := ⟨[1, 2, 3, 4, 5]⟩

/-- Scanner answers: `OK` with no batch, not at the end of the token. -/
def scanOK : ScanResult := ⟨.OK, false, ⟨[]⟩, false⟩

/-- Scanner answers: `OK` with batch `b`; `eos` tells whether the token is finished. -/
def scanBatch (b : RowBatch) (eos : Bool) : ScanResult := ⟨.OK, eos, b, false⟩

/-- Scanner answers: an error. -/
def scanError (code : Nat) : ScanResult := ⟨.error code, false, ⟨[]⟩, false⟩

/-- The steps of a freshly started thread `i` that opens its scanner and its token,
fetches batch `b` (not the last of the token), enqueues it and is then about to fetch
the next batch. -/
def fetchAndEnqueue (i : Nat) (b : RowBatch) : List Action :=
  [.Scanner i scanOK,                 -- scanner.Open()
   .Scanner i scanOK,                 -- loop test
   .Scanner i scanOK,                 -- OpenNextScanToken
   .Scanner i scanOK,                 -- outer test
   .Scanner i (scanBatch b false),    -- scanner->GetNext
   .Scanner i scanOK,                 -- inner test
   .Scanner i scanOK,                 -- enqueue
   .Scanner i scanOK]                 -- outer test

/-- Scenario D: limit 10, one token, the first thread enqueues two batches of seven
rows (the second ends the token). -/
def scenarioD_schedule : List Action :=
  [.ThreadAvailable false .OK] ++ fetchAndEnqueue 0 batch7 ++
  [.Scanner 0 (scanBatch batch7 true), .Scanner 0 scanOK, .Scanner 0 scanOK]

/-- The node of scenario D when both batches are buffered. -/
def scenarioD : KuduScanNode :=
  { done_ := false, status_ := .OK, limit_ := 10, num_rows_returned_ := 0,
    num_active := 1, max_num_scanner_threads := 1,
    batch_queue := { capacity := 4, contents := [batch7, batch7], shutdown := false },
    scanner_threads := [⟨true, some 0, .OK, true, none, .outerTest⟩],
    scan_tokens := [0], next_scan_token_idx_ := 1 }

/-- Scenario C: two tokens; the first thread has enqueued one batch of its token and
is about to fetch the next one when the second admission attempt fails to start a
thread (error 42). The first thread then fetches a batch of five rows and runs on to
its end. -/
def scenarioC_schedule : List Action :=
  [.ThreadAvailable false .OK] ++ fetchAndEnqueue 0 batch7 ++
  [.ThreadAvailable true (.error 42),
   .Scanner 0 (scanBatch batch5 false),   -- scanner->GetNext
   .Scanner 0 scanOK,                     -- inner test
   .Scanner 0 scanOK,                     -- outer test
   .Scanner 0 scanOK,                     -- after the token
   .Scanner 0 scanOK,                     -- loop test
   .Scanner 0 scanOK,                     -- exit block
   .Scanner 0 scanOK]                     -- release

/-- A run with limit 5 and one token: the first thread enqueues a batch of five rows,
its next fetch fails (error 7), it exits, and the consumer takes the batch. -/
def limitError_schedule : List Action :=
  [.ThreadAvailable false .OK] ++ fetchAndEnqueue 0 batch5 ++
  [.Scanner 0 (scanError 7), .Scanner 0 scanOK, .GetNext .OK]

/-- Scenario C up to the failing admission attempt. -/
def scenarioC_start : List Action :=
  [.ThreadAvailable false .OK] ++ fetchAndEnqueue 0 batch7

/-- The node at the end of the run of scenario C. -/
def scenarioC_final : KuduScanNode :=
  ((run scenarioC_schedule (initial [0, 1] 0 2 4)).map Prod.fst).getD (initial [0, 1] 0 2 4)

/-- The trace of the run of scenario C. -/
def scenarioC_trace : List Event :=
  ((run scenarioC_schedule (initial [0, 1] 0 2 4)).map Prod.snd).getD []

/-- Scenario C just before the failing admission attempt: the first thread is about
to fetch the second batch of its token. -/
def scenarioC_before : KuduScanNode :=
  ((run scenarioC_start (initial [0, 1] 0 2 4)).map Prod.fst).getD (initial [0, 1] 0 2 4)

/-- The node at the end of the run with limit 5 and a scanner error. -/
def limitError_final : KuduScanNode :=
  ((run limitError_schedule (initial [0] 5 1 4)).map Prod.fst).getD (initial [0] 5 1 4)

/-- Events of a run that is over: locking, `SetDone`, failed enqueues, scanner calls,
slot releases and the `optional_exceeded` test; in particular no slot is acquired, no
thread start attempted, no token claimed and no batch enqueued. -/
def Event.afterDone : Event → Bool
  | .lock => true
  | .unlock => true
  | .SetDone => true
  | .Enqueue false => true
  | .ScannerCall _ => true
  | .ReleaseThreadToken _ false => true
  | .optional_exceeded _ => true
  | _ => false

/-- The node of the run with limit 5 just before the consumer's call: the batch of
five rows is buffered and the scanner error is recorded. -/
def limitError_before : KuduScanNode :=
  ((run (limitError_schedule.take 11) (initial [0] 5 1 4)).map Prod.fst).getD
    (initial [0] 5 1 4)

/-- A scanner answer: `OK` and the token is already at its end. -/
def scanEnd : ScanResult := ⟨.OK, true, ⟨[]⟩, false⟩

/-- The steps of a freshly started thread `i` whose token turns out empty, and which
then finds no further token and runs to its end. -/
def emptyTokenThread (i : Nat) : List Action :=
  [.Scanner i scanOK,     -- scanner.Open()
   .Scanner i scanOK,     -- loop test
   .Scanner i scanEnd,    -- OpenNextScanToken, at its end
   .Scanner i scanOK,     -- after the token: nothing left to claim
   .Scanner i scanOK,     -- loop test
   .Scanner i scanOK,     -- exit block
   .Scanner i scanOK]     -- release

/-- Two tokens, two threads, no failure: both threads are admitted, each finds its
token empty and exits; the exit of the last one sets `done_`. -/
def twoThreads_schedule : List Action :=
  [.ThreadAvailable false .OK, .ThreadAvailable true .OK] ++
    emptyTokenThread 1 ++ emptyTokenThread 0

/-- The node at the end of the run with two threads. -/
def twoThreads_final : KuduScanNode :=
  ((run twoThreads_schedule (initial [0, 1] 0 2 4)).map Prod.fst).getD (initial [0, 1] 0 2 4)

/-- The trace of the run with two threads. -/
def twoThreads_trace : List Event :=
  ((run twoThreads_schedule (initial [0, 1] 0 2 4)).map Prod.snd).getD []

/-! ## Shutdown -/

theorem SetDoneInternal_done (s : KuduScanNode) : (SetDoneInternal s).1.done_ = true := by
  unfold SetDoneInternal
  by_cases h : s.done_ = true <;> simp [h]

theorem SetDoneInternal_of_done (s : KuduScanNode) (h : s.done_ = true) :
    SetDoneInternal s = (s, []) := by
  simp [SetDoneInternal, h]

theorem SetDone_done (s : KuduScanNode) : (SetDone s).1.done_ = true := by
  simp [SetDone, SetDoneInternal_done]

theorem SetDone_of_done (s : KuduScanNode) (h : s.done_ = true) :
    SetDone s = (s, [Event.SetDone, Event.lock, Event.unlock]) := by
  simp [SetDone, SetDoneInternal_of_done s h]

theorem SetDoneTimes_of_done (n : Nat) (s : KuduScanNode) (h : s.done_ = true) :
    (SetDoneTimes n s).1 = s ∧ (SetDoneTimes n s).2.count Event.Shutdown = 0 := by
  induction n with
  | zero => simp [SetDoneTimes]
  | succ k ih =>
    simp only [SetDoneTimes, SetDone_of_done s h]
    refine ⟨ih.1, ?_⟩
    rw [List.count_append, ih.2]
    decide

/-- C5: `SetDone` is idempotent. After any call `done_` is true; a call made while
`done_` is false shuts the batch queue down (exactly one `Shutdown`); a call made
while `done_` is true, so any second call, changes nothing and does not shut the
queue down again; and `n + 1` successive calls
end in the state of the first call, with `done_` true and one `Shutdown` in all when
`done_` was false at the start (none when it was already true). -/
theorem SetDone_idempotent (s : KuduScanNode) (n : Nat) :
    (SetDone s).1.done_ = true ∧
    (s.done_ = false →
      (SetDone s).1.batch_queue.shutdown = true ∧
      (SetDone s).2.count Event.Shutdown = 1) ∧
    (s.done_ = true → SetDone s = (s, [Event.SetDone, Event.lock, Event.unlock])) ∧
    SetDone (SetDone s).1 = ((SetDone s).1, [Event.SetDone, Event.lock, Event.unlock]) ∧
    (SetDoneTimes (n + 1) s).1 = (SetDone s).1 ∧
    (SetDoneTimes (n + 1) s).1.done_ = true ∧
    (SetDoneTimes (n + 1) s).2.count Event.Shutdown = (if s.done_ then 0 else 1) := by
  have hd := SetDone_done s
  have ht := SetDoneTimes_of_done n (SetDone s).1 hd
  refine ⟨hd, ?_, SetDone_of_done s, SetDone_of_done _ hd, ?_, ?_, ?_⟩
  · intro h
    simp [SetDone, SetDoneInternal, h, RowBatchQueue.Shutdown]
  · simp only [SetDoneTimes]
    exact ht.1
  · simp only [SetDoneTimes]
    rw [ht.1]
    exact hd
  · simp only [SetDoneTimes]
    rw [List.count_append, ht.2]
    by_cases h : s.done_ = true
    · simp [SetDone, SetDoneInternal, h]
    · simp [SetDone, SetDoneInternal, h]

/-- Witness for C5 on the node just after `Open`, with three calls. -/
theorem SetDone_idempotent_witness :
    (initial [0] 0 1 4).done_ = false ∧
    (SetDone (initial [0] 0 1 4)).1.batch_queue.shutdown = true ∧
    (SetDone (initial [0] 0 1 4)).2.count Event.Shutdown = 1 ∧
    (SetDoneTimes 3 (initial [0] 0 1 4)).1 = (SetDone (initial [0] 0 1 4)).1 :=
  ⟨rfl, ((SetDone_idempotent (initial [0] 0 1 4) 2).2.1 rfl).1,
    ((SetDone_idempotent (initial [0] 0 1 4) 2).2.1 rfl).2,
    (SetDone_idempotent (initial [0] 0 1 4) 2).2.2.2.2.1⟩

/-! ## The consumer: limit trimming -/

theorem toInt64_of_range (x : Int) (h0 : -9223372036854775808 ≤ x)
    (h1 : x < 9223372036854775808) : toInt64 x = x := by
  unfold toInt64
  omega

theorem toInt32_of_range (x : Int) (h0 : -2147483648 ≤ x) (h1 : x < 2147483648) :
    toInt32 x = x := by
  unfold toInt32
  omega

theorem RowBatch.num_rows_nonneg (b : RowBatch) : 0 ≤ b.num_rows := by
  simp [RowBatch.num_rows]

theorem RowBatch.num_rows_set (b : RowBatch) (k : Int) (h0 : 0 ≤ k) (h1 : k ≤ b.num_rows) :
    (b.set_num_rows k).num_rows = k := by
  simp only [RowBatch.num_rows, RowBatch.set_num_rows, List.length_take] at *
  omega

/-- A `GetNext` call that dequeues a batch which reaches the limit. -/
theorem GetNext_crossing (s : KuduScanNode) (b : RowBatch) (rest : List RowBatch)
    (hr0 : 0 ≤ s.num_rows_returned_) (hrL : s.num_rows_returned_ < s.limit_)
    (hq : s.batch_queue.contents = b :: rest) (htok : NumScanTokens s ≠ 0)
    (hn : b.num_rows < 2147483648)
    (hov : s.num_rows_returned_ + b.num_rows < 9223372036854775808)
    (hc : s.limit_ ≤ s.num_rows_returned_ + b.num_rows) :
    GetNext .OK s =
      some ((SetDone { s with batch_queue := { s.batch_queue with contents := rest },
                              num_rows_returned_ := s.limit_ }).1,
        ⟨s.status_, some true, some (b.set_num_rows (s.limit_ - s.num_rows_returned_))⟩,
        (SetDone { s with batch_queue := { s.batch_queue with contents := rest },
                          num_rows_returned_ := s.limit_ }).2 ++
          [Event.lock, Event.unlock]) := by
  have hb := b.num_rows_nonneg
  have h1 : toInt64 (s.num_rows_returned_ + b.num_rows) = s.num_rows_returned_ + b.num_rows :=
    toInt64_of_range _ (by omega) hov
  have h2 : toInt64 (s.num_rows_returned_ + b.num_rows - s.limit_) =
      s.num_rows_returned_ + b.num_rows - s.limit_ := toInt64_of_range _ (by omega) (by omega)
  have h3 : toInt32 (s.num_rows_returned_ + b.num_rows - s.limit_) =
      s.num_rows_returned_ + b.num_rows - s.limit_ := toInt32_of_range _ (by omega) (by omega)
  have h4 : toInt32 (b.num_rows - (s.num_rows_returned_ + b.num_rows - s.limit_)) =
      s.limit_ - s.num_rows_returned_ := by
    rw [toInt32_of_range _ (by omega) (by omega)]
    omega
  have h5 : toInt64 (s.num_rows_returned_ + b.num_rows -
      (s.num_rows_returned_ + b.num_rows - s.limit_)) = s.limit_ := by
    rw [toInt64_of_range _ (by omega) (by omega)]
    omega
  have hl0 : s.limit_ ≠ 0 := by omega
  have hnr : ReachedLimit s = false := by
    simp only [ReachedLimit, Bool.and_eq_false_imp, decide_eq_true_eq, decide_eq_false_iff_not]
    intro _
    omega
  have hst : ∀ t : KuduScanNode, (SetDone t).1.status_ = t.status_ := by
    intro t
    unfold SetDone SetDoneInternal
    by_cases hd : t.done_ = true <;> simp [hd]
  simp only [GetNext, Status.ok, hnr, htok, RowBatchQueue.GetBatch, hq, h1]
  simp only [ReachedLimit, h2, h3, h4, h5, hst]
  simp [hl0, hc]

/-- A `GetNext` call that dequeues a batch which stays below the limit. -/
theorem GetNext_below (s : KuduScanNode) (b : RowBatch) (rest : List RowBatch)
    (hr0 : 0 ≤ s.num_rows_returned_) (hrL : s.num_rows_returned_ < s.limit_)
    (hq : s.batch_queue.contents = b :: rest) (htok : NumScanTokens s ≠ 0)
    (hov : s.num_rows_returned_ + b.num_rows < 9223372036854775808)
    (hc : s.num_rows_returned_ + b.num_rows < s.limit_) :
    GetNext .OK s =
      some ({ s with batch_queue := { s.batch_queue with contents := rest },
                     num_rows_returned_ := s.num_rows_returned_ + b.num_rows },
        ⟨s.status_, some false, some b⟩, [Event.lock, Event.unlock]) := by
  have hb := b.num_rows_nonneg
  have h1 : toInt64 (s.num_rows_returned_ + b.num_rows) = s.num_rows_returned_ + b.num_rows :=
    toInt64_of_range _ (by omega) hov
  have hnr : ReachedLimit s = false := by
    simp only [ReachedLimit, Bool.and_eq_false_imp, decide_eq_true_eq, decide_eq_false_iff_not]
    intro _
    omega
  simp only [GetNext, Status.ok, hnr, htok, RowBatchQueue.GetBatch, hq, h1]
  simp only [ReachedLimit]
  simp [hc]

/-- Successive `GetNext` calls over buffered batches that reach the limit: every call
but the last reports no end of stream, the last reports end of stream, and the rows
handed back sum to what was left of the limit. -/
theorem pull_sum (rest : List RowBatch) :
    ∀ (s : KuduScanNode) (b : RowBatch),
      0 ≤ s.num_rows_returned_ → s.num_rows_returned_ < s.limit_ →
      s.batch_queue.contents = b :: rest → NumScanTokens s ≠ 0 →
      (∀ x ∈ b :: rest, x.num_rows < 2147483648) →
      s.limit_ + 2147483648 ≤ 9223372036854775808 →
      s.limit_ ≤ s.num_rows_returned_ + totalRows (b :: rest) →
      ∃ outs last, pull (rest.length + 1) s = some (outs ++ [last]) ∧
        (∀ o ∈ outs, o.eos = some false) ∧ last.eos = some true ∧
        ((outs ++ [last]).map GetNextResult.num_rows).sum =
          s.limit_ - s.num_rows_returned_ := by
  induction rest with
  | nil =>
    intro s b hr0 hrL hq htok hn hL hsum
    have hnb := hn b (List.mem_cons_self _ _)
    have hc : s.limit_ ≤ s.num_rows_returned_ + b.num_rows := by
      simpa [totalRows] using hsum
    have hb := b.num_rows_nonneg
    refine ⟨[], ⟨s.status_, some true,
        some (b.set_num_rows (s.limit_ - s.num_rows_returned_))⟩, ?_, by simp, rfl, ?_⟩
    · simp only [pull, GetNext_crossing s b [] hr0 hrL hq htok hnb (by omega) hc]
      simp
    · simp only [List.nil_append, List.map_cons, List.map_nil, List.sum_cons, List.sum_nil,
        GetNextResult.num_rows, add_zero]
      exact RowBatch.num_rows_set b _ (by omega) (by omega)
  | cons b2 rest2 ih =>
    intro s b hr0 hrL hq htok hn hL hsum
    have hnb := hn b (List.mem_cons_self _ _)
    have hb := b.num_rows_nonneg
    by_cases hc : s.limit_ ≤ s.num_rows_returned_ + b.num_rows
    · refine ⟨[], ⟨s.status_, some true,
        some (b.set_num_rows (s.limit_ - s.num_rows_returned_))⟩, ?_, by simp, rfl, ?_⟩
      · simp only [pull,
          GetNext_crossing s b (b2 :: rest2) hr0 hrL hq htok hnb (by omega) hc]
        simp
      · simp only [List.nil_append, List.map_cons, List.map_nil, List.sum_cons,
          List.sum_nil, GetNextResult.num_rows, add_zero]
        exact RowBatch.num_rows_set b _ (by omega) (by omega)
    · have hc2 : s.num_rows_returned_ + b.num_rows < s.limit_ := by omega
      have hstep := GetNext_below s b (b2 :: rest2) hr0 hrL hq htok (by omega) hc2
      have hsum2 : s.limit_ ≤ (s.num_rows_returned_ + b.num_rows) +
          totalRows (b2 :: rest2) := by
        simp only [totalRows, List.map_cons, List.sum_cons] at hsum ⊢
        omega
      obtain ⟨outs, last, hp, ho, hl, hs⟩ :=
        ih { s with batch_queue := { s.batch_queue with contents := b2 :: rest2 },
                    num_rows_returned_ := s.num_rows_returned_ + b.num_rows } b2
          (by simp only; omega) hc2 rfl htok
          (fun x hx => hn x (List.mem_cons_of_mem _ hx)) hL hsum2
      refine ⟨⟨s.status_, some false, some b⟩ :: outs, last, ?_, ?_, hl, ?_⟩
      · rw [pull, hstep]
        simp only [List.length_cons] at hp
        simp [hp]
      · intro o hmem
        rcases List.mem_cons.1 hmem with h | h
        · rw [h]
        · exact ho o h
      · simp only [List.cons_append, List.map_cons, List.sum_cons, hs]
        simp only [GetNextResult.num_rows]
        omega

/-- C1: limit trimming in `GetNext`. With a limit `L`, a running row count `r < L`
and a dequeued batch of `n` rows (all within the ranges of their C++ integer types):
if `r + n ≥ L` the batch handed back is cut to `L - r` rows, the count becomes `L`,
`*eos` is true and `SetDone` has run (so `done_` is true); if `r + n < L` the whole
batch is handed back, the count becomes `r + n`, `*eos` is false and `done_` is left
as it was. Consequently, when the buffered batches reach the limit, the rows handed
back by successive calls sum to exactly `L - r` (to `L` from a fresh node) and end of
stream is reported on the crossing call only. -/
theorem GetNext_limit_trimming (s : KuduScanNode) (b : RowBatch) (rest : List RowBatch)
    (L r : Int) (hL : s.limit_ = L) (hr : s.num_rows_returned_ = r)
    (hr0 : 0 ≤ r) (hrL : r < L)
    (hq : s.batch_queue.contents = b :: rest) (htok : NumScanTokens s ≠ 0)
    (hn : b.num_rows < 2147483648) (hov : r + b.num_rows < 9223372036854775808) :
    (L ≤ r + b.num_rows →
      ∃ s1 ev, GetNext .OK s =
          some (s1, ⟨s1.status_, some true, some (b.set_num_rows (L - r))⟩, ev) ∧
        (b.set_num_rows (L - r)).num_rows = L - r ∧
        (b.set_num_rows (L - r)).rows = b.rows.take (L - r).toNat ∧
        s1.num_rows_returned_ = L ∧ s1.done_ = true ∧ Event.SetDone ∈ ev ∧
        s1.batch_queue.contents = rest) ∧
    (r + b.num_rows < L →
      GetNext .OK s =
        some ({ s with batch_queue := { s.batch_queue with contents := rest },
                       num_rows_returned_ := r + b.num_rows },
          ⟨s.status_, some false, some b⟩, [Event.lock, Event.unlock])) ∧
    ((∀ x ∈ rest, x.num_rows < 2147483648) → L + 2147483648 ≤ 9223372036854775808 →
      L ≤ r + totalRows (b :: rest) →
      ∃ outs last, pull (rest.length + 1) s = some (outs ++ [last]) ∧
        (∀ o ∈ outs, o.eos = some false) ∧ last.eos = some true ∧
        ((outs ++ [last]).map GetNextResult.num_rows).sum = L - r) := by
  subst hL hr
  have hb := b.num_rows_nonneg
  refine ⟨?_, ?_, ?_⟩
  · intro hc
    refine ⟨(SetDone { s with batch_queue := { s.batch_queue with contents := rest },
                              num_rows_returned_ := s.limit_ }).1,
      (SetDone { s with batch_queue := { s.batch_queue with contents := rest },
                        num_rows_returned_ := s.limit_ }).2 ++ [Event.lock, Event.unlock],
      ?_, RowBatch.num_rows_set b _ (by omega) (by omega), rfl, ?_, ?_, ?_, ?_⟩
    · rw [GetNext_crossing s b rest hr0 hrL hq htok hn hov hc]
      simp only [SetDone, SetDoneInternal]
      by_cases hd : s.done_ = true <;> simp [hd]
    · simp only [SetDone, SetDoneInternal]
      by_cases hd : s.done_ = true <;> simp [hd]
    · exact SetDone_done _
    · simp [SetDone]
    · simp only [SetDone, SetDoneInternal]
      by_cases hd : s.done_ = true <;> simp [hd, RowBatchQueue.Shutdown]
  · intro hc
    exact GetNext_below s b rest hr0 hrL hq htok hov hc
  · intro hrest hL hsum
    exact pull_sum rest s b hr0 hrL hq htok
      (fun x hx => by
        rcases List.mem_cons.1 hx with h | h
        · rw [h]; exact hn
        · exact hrest x h) hL hsum

/-! ## The admission loop, case by case -/

theorem ThreadAvailableIter_stop (t : Bool) (c : Status) (s : KuduScanNode)
    (h : s.done_ = true ∨ HasScanToken s = false) :
    ThreadAvailableIter t c s = (s, [Event.lock, Event.unlock], false) := by
  unfold ThreadAvailableIter
  rcases h with h | h <;> simp [h]

theorem ThreadAvailableIter_refuse (t : Bool) (c : Status) (s : KuduScanNode)
    (hd : s.done_ = false) (ht : HasScanToken s = true)
    (hadm : ¬ (s.num_active = 0 ∨ (s.num_active < s.max_num_scanner_threads ∧ t = true))) :
    (ThreadAvailableIter t c s).1 = s ∧ (ThreadAvailableIter t c s).2.2 = false ∧
    ((ThreadAvailableIter t c s).2.1 = [Event.lock, Event.unlock] ∨
      (ThreadAvailableIter t c s).2.1 =
        [Event.lock, Event.TryAcquireThreadToken false, Event.unlock]) := by
  unfold ThreadAvailableIter
  have h0 : ¬ s.num_active = 0 := fun h => hadm (Or.inl h)
  by_cases hm : s.max_num_scanner_threads ≤ s.num_active
  · simp [hd, ht, h0, hm]
  · have htf : t = false := by
      cases t
      · rfl
      · exact absurd (Or.inr ⟨by omega, rfl⟩) hadm
    simp [hd, ht, h0, hm, htf]

theorem ThreadAvailableIter_fail (t : Bool) (c : Status) (s : KuduScanNode)
    (hd : s.done_ = false) (ht : HasScanToken s = true)
    (hadm : s.num_active = 0 ∨ (s.num_active < s.max_num_scanner_threads ∧ t = true))
    (hc : c.ok = false) :
    ThreadAvailableIter t c s =
      ({ s with next_scan_token_idx_ := s.next_scan_token_idx_ + 1, status_ := c,
                done_ := true, batch_queue := s.batch_queue.Shutdown },
        [Event.lock,
          if s.num_active = 0 then Event.AcquireThreadToken
          else Event.TryAcquireThreadToken true,
          Event.GetNextScanToken s.scanner_threads.length s.next_scan_token_idx_,
          Event.ThreadCreate (decide (s.num_active = 0)) (some s.next_scan_token_idx_) c,
          Event.ReleaseThreadToken (decide (s.num_active = 0)) true,
          Event.Shutdown, Event.unlock], false) := by
  unfold ThreadAvailableIter
  rcases hadm with h0 | ⟨hm, htt⟩
  · simp [hd, ht, h0, hc, GetNextScanToken, SetDoneInternal]
  · have hm2 : ¬ s.max_num_scanner_threads ≤ s.num_active := by omega
    by_cases h0 : s.num_active = 0 <;>
      simp [hd, ht, h0, hm2, htt, hc, GetNextScanToken, SetDoneInternal]

theorem ThreadAvailableIter_success (t : Bool) (c : Status) (s : KuduScanNode)
    (hd : s.done_ = false) (ht : HasScanToken s = true)
    (hadm : s.num_active = 0 ∨ (s.num_active < s.max_num_scanner_threads ∧ t = true))
    (hc : c.ok = true) :
    ThreadAvailableIter t c s =
      (AddThread { s with next_scan_token_idx_ := s.next_scan_token_idx_ + 1 }
          ⟨decide (s.num_active = 0), some s.next_scan_token_idx_, .OK, false, none,
            .scannerOpen⟩,
        [Event.lock,
          if s.num_active = 0 then Event.AcquireThreadToken
          else Event.TryAcquireThreadToken true,
          Event.GetNextScanToken s.scanner_threads.length s.next_scan_token_idx_,
          Event.ThreadCreate (decide (s.num_active = 0)) (some s.next_scan_token_idx_) c,
          Event.AddThread, Event.unlock], true) := by
  unfold ThreadAvailableIter
  rcases hadm with h0 | ⟨hm, htt⟩
  · simp [hd, ht, h0, hc, GetNextScanToken]
  · have hm2 : ¬ s.max_num_scanner_threads ≤ s.num_active := by omega
    by_cases h0 : s.num_active = 0 <;>
      simp [hd, ht, h0, hm2, htt, hc, GetNextScanToken]

/-! ## Scanner-thread steps: what they touch -/

/-- A step inside `ProcessScanToken` changes nothing in the node but the contents of
the batch queue, and keeps the thread among the active ones. -/
theorem ProcessScanToken_frame (r : ScanResult) (s s1 : KuduScanNode)
    (w w1 : ScannerThread) (ev : List Event)
    (h : ProcessScanToken r s w = some (s1, w1, ev)) :
    s1.done_ = s.done_ ∧ s1.status_ = s.status_ ∧ s1.num_active = s.num_active ∧
    s1.scanner_threads = s.scanner_threads ∧ s1.scan_tokens = s.scan_tokens ∧
    s1.max_num_scanner_threads = s.max_num_scanner_threads ∧
    s1.next_scan_token_idx_ = s.next_scan_token_idx_ ∧
    s1.batch_queue.shutdown = s.batch_queue.shutdown ∧
    s1.limit_ = s.limit_ ∧ s1.num_rows_returned_ = s.num_rows_returned_ ∧
    w1.active = true ∧ w.active = true ∧ w1.first_thread = w.first_thread ∧
    w1.scan_token = w.scan_token := by
  unfold ProcessScanToken at h
  split at h
  · split at h
    · simp only [Option.some.injEq, Prod.mk.injEq] at h
      obtain ⟨rfl, rfl, rfl⟩ := h
      simp_all [ScannerThread.active]
    · split at h <;>
      · simp only [Option.some.injEq, Prod.mk.injEq] at h
        obtain ⟨rfl, rfl, rfl⟩ := h
        simp_all [ScannerThread.active]
  · split at h <;>
    · simp only [Option.some.injEq, Prod.mk.injEq] at h
      obtain ⟨rfl, rfl, rfl⟩ := h
      simp_all [ScannerThread.active]
  · split at h <;>
    · simp only [Option.some.injEq, Prod.mk.injEq] at h
      obtain ⟨rfl, rfl, rfl⟩ := h
      simp_all [ScannerThread.active]
  · split at h <;>
    · simp only [Option.some.injEq, Prod.mk.injEq] at h
      obtain ⟨rfl, rfl, rfl⟩ := h
      simp_all [ScannerThread.active]
  · split at h
    · exact absurd h (by simp)
    · unfold RowBatchQueue.EnqueueBatchWithTimeout at h
      split at h
      · rename_i heq
        split at heq <;> simp at heq
        simp only [Option.some.injEq, Prod.mk.injEq] at h
        obtain ⟨rfl, rfl, rfl⟩ := h
        obtain ⟨-, rfl⟩ := heq
        simp_all [ScannerThread.active]
      · simp only [Option.some.injEq, Prod.mk.injEq] at h
        obtain ⟨rfl, rfl, rfl⟩ := h
        simp_all [ScannerThread.active]
  · exact absurd h (by simp)

/-- A scanner-thread step other than the exit block leaves `done_`, `status_`, the
thread counter and the thread list alone; the token index can only move forward; the
thread stays active or stays exited. -/
theorem RunScannerThread_frame (i : Nat) (r : ScanResult) (s s1 : KuduScanNode)
    (w w1 : ScannerThread) (ev : List Event)
    (h : RunScannerThread i r s w = some (s1, w1, ev)) (hpc : w.pc ≠ .exitBlock) :
    s1.done_ = s.done_ ∧ s1.status_ = s.status_ ∧ s1.num_active = s.num_active ∧
    s1.scanner_threads = s.scanner_threads ∧ s1.scan_tokens = s.scan_tokens ∧
    s1.max_num_scanner_threads = s.max_num_scanner_threads ∧
    s.next_scan_token_idx_ ≤ s1.next_scan_token_idx_ ∧
    s1.batch_queue.shutdown = s.batch_queue.shutdown ∧
    s1.limit_ = s.limit_ ∧ s1.num_rows_returned_ = s.num_rows_returned_ ∧
    w1.active = w.active ∧ w1.first_thread = w.first_thread := by
  unfold RunScannerThread at h
  split at h
  · split at h <;>
    · simp only [Option.some.injEq, Prod.mk.injEq] at h
      obtain ⟨rfl, rfl, rfl⟩ := h
      simp_all [ScannerThread.active]
  · split at h <;>
    · simp only [Option.some.injEq, Prod.mk.injEq] at h
      obtain ⟨rfl, rfl, rfl⟩ := h
      simp_all [ScannerThread.active]
  · split at h
    · simp only [Option.some.injEq, Prod.mk.injEq] at h
      obtain ⟨rfl, rfl, rfl⟩ := h
      simp_all [ScannerThread.active]
    · by_cases hd : s.done_ = true <;> by_cases ht : HasScanToken s = true <;>
      · simp only [hd, ht, GetNextScanToken, Bool.not_true, Bool.not_false, if_true,
          if_false, Bool.false_eq_true, Option.some.injEq, Prod.mk.injEq] at h
        obtain ⟨rfl, rfl, rfl⟩ := h
        simp_all [ScannerThread.active]
  · rename_i hx
    exact absurd hx hpc
  · simp only [Option.some.injEq, Prod.mk.injEq] at h
    obtain ⟨rfl, rfl, rfl⟩ := h
    simp_all [ScannerThread.active]
  · exact absurd h (by simp)
  · have hf := ProcessScanToken_frame r s s1 w w1 ev h
    obtain ⟨h1, h2, h3, h4, h5, h6, h7, h8, h9, h10, h11, h12, h13, -⟩ := hf
    exact ⟨h1, h2, h3, h4, h5, h6, by omega, h8, h9, h10, by rw [h11, h12], h13⟩

/-- The exit block of a scanner thread. -/
theorem RunScannerThread_exit (i : Nat) (r : ScanResult) (s s1 : KuduScanNode)
    (w w1 : ScannerThread) (ev : List Event)
    (h : RunScannerThread i r s w = some (s1, w1, ev)) (hpc : w.pc = .exitBlock) :
    w1 = { w with pc := .release } ∧
    s1.num_active = s.num_active - 1 ∧
    s1.status_ = (if !w.status.ok && s.status_.ok then w.status else s.status_) ∧
    s1.done_ = (s.done_ || (!w.status.ok && s.status_.ok) || decide (s.num_active - 1 = 0)) ∧
    s1.batch_queue.shutdown = (s.batch_queue.shutdown || (s1.done_ && !s.done_)) ∧
    s1.batch_queue.contents = s.batch_queue.contents ∧
    s1.scanner_threads = s.scanner_threads ∧ s1.scan_tokens = s.scan_tokens ∧
    s1.max_num_scanner_threads = s.max_num_scanner_threads ∧
    s1.next_scan_token_idx_ = s.next_scan_token_idx_ ∧
    s1.limit_ = s.limit_ ∧ s1.num_rows_returned_ = s.num_rows_returned_ := by
  unfold RunScannerThread at h
  simp only [hpc, Option.some.injEq, Prod.mk.injEq] at h
  obtain ⟨rfl, rfl, -⟩ := h
  simp only [DecrementNumActive, SetDoneInternal, RowBatchQueue.Shutdown]
  by_cases h1 : (!w.status.ok && s.status_.ok) = true <;>
    by_cases h2 : s.done_ = true <;>
      by_cases h3 : s.num_active - 1 = 0 <;>
        simp [h1, h2, h3]

/-! ## The consumer and shutdown: what they touch -/

/-- `GetNext` never touches `status_`, the counters, the threads or the tokens; it
can only set `done_` (shutting the queue down) and take batches out of the queue. -/
theorem GetNext_frame (pre : Status) (s s1 : KuduScanNode) (res : GetNextResult)
    (ev : List Event) (h : GetNext pre s = some (s1, res, ev)) :
    s1.status_ = s.status_ ∧ s1.num_active = s.num_active ∧
    s1.scanner_threads = s.scanner_threads ∧ s1.scan_tokens = s.scan_tokens ∧
    s1.max_num_scanner_threads = s.max_num_scanner_threads ∧
    s1.next_scan_token_idx_ = s.next_scan_token_idx_ ∧
    (s.done_ = true → s1.done_ = true) ∧
    (s1.done_ = true → s.done_ = false → s1.batch_queue.shutdown = true) ∧
    (s.batch_queue.shutdown = true → s1.batch_queue.shutdown = true) ∧
    (Event.SetDone ∉ ev → s1.done_ = s.done_) ∧
    (∃ k, s1.batch_queue.contents = s.batch_queue.contents.drop k) := by
  unfold GetNext at h
  split at h
  · simp only [Option.some.injEq, Prod.mk.injEq] at h
    obtain ⟨rfl, -, rfl⟩ := h
    refine ⟨rfl, rfl, rfl, rfl, rfl, rfl, ?_, ?_, ?_, ?_, 0, rfl⟩ <;> simp_all
  · split at h
    · simp only [Option.some.injEq, Prod.mk.injEq] at h
      obtain ⟨rfl, -, rfl⟩ := h
      refine ⟨rfl, rfl, rfl, rfl, rfl, rfl, ?_, ?_, ?_, ?_, 0, rfl⟩ <;> simp_all
    · unfold RowBatchQueue.GetBatch at h
      split at h
      · exact absurd h (by simp)
      · rename_i b q heq
        split at heq
        · rename_i b2 rest hq
          simp only [Option.some.injEq, Prod.mk.injEq] at heq
          obtain ⟨rfl, rfl⟩ := heq
          dsimp only at h
          split at h
          · simp only [Option.some.injEq, Prod.mk.injEq] at h
            obtain ⟨rfl, -, rfl⟩ := h
            simp only [SetDone, SetDoneInternal]
            by_cases hd : s.done_ = true
            · refine ⟨?_, ?_, ?_, ?_, ?_, ?_, ?_, ?_, ?_, ?_, 1, ?_⟩ <;>
                simp [hd, hq]
            · refine ⟨?_, ?_, ?_, ?_, ?_, ?_, ?_, ?_, ?_, ?_, 1, ?_⟩ <;>
                simp [hd, hq, RowBatchQueue.Shutdown]
          · simp only [Option.some.injEq, Prod.mk.injEq] at h
            obtain ⟨rfl, -, rfl⟩ := h
            refine ⟨rfl, rfl, rfl, rfl, rfl, rfl, ?_, ?_, ?_, ?_, 1, ?_⟩ <;> simp_all
        · split at heq <;> simp at heq
      · rename_i q heq
        split at heq
        · simp at heq
        · split at heq
          · simp only [Option.some.injEq, Prod.mk.injEq] at heq
            obtain ⟨-, rfl⟩ := heq
            simp only [Option.some.injEq, Prod.mk.injEq] at h
            obtain ⟨rfl, -, rfl⟩ := h
            refine ⟨rfl, rfl, rfl, rfl, rfl, rfl, ?_, ?_, ?_, ?_, 0, rfl⟩ <;> simp_all
          · simp at heq

theorem countP_set_int (p : ScannerThread → Bool) (l : List ScannerThread) :
    ∀ (i : Nat) (w w1 : ScannerThread), l[i]? = some w →
      ((l.set i w1).countP p : Int) =
        (l.countP p : Int) - (if p w then 1 else 0) + (if p w1 then 1 else 0) := by
  induction l with
  | nil => intro i w w1 h; simp at h
  | cons a l ih =>
    intro i w w1 h
    cases i with
    | zero =>
      simp only [List.getElem?_cons_zero, Option.some.injEq] at h
      subst h
      simp only [List.set_cons_zero, List.countP_cons]
      by_cases h1 : p a = true <;> by_cases h2 : p w1 = true <;> simp [h1, h2]
    | succ j =>
      simp only [List.getElem?_cons_succ] at h
      simp only [List.set_cons_succ, List.countP_cons, Nat.cast_add, ih j w w1 h]
      omega

/-- One iteration of the admission loop either changes nothing, or records a start
failure, or adds a thread. -/
theorem ThreadAvailableIter_cases (t : Bool) (c : Status) (s : KuduScanNode) :
    ((ThreadAvailableIter t c s).1 = s ∧ (ThreadAvailableIter t c s).2.2 = false ∧
      ∀ e ∈ (ThreadAvailableIter t c s).2.1,
        e = Event.lock ∨ e = Event.unlock ∨ e = Event.TryAcquireThreadToken false) ∨
    (s.done_ = false ∧ HasScanToken s = true ∧ c.ok = false ∧
      (s.num_active = 0 ∨ (s.num_active < s.max_num_scanner_threads ∧ t = true)) ∧
      (ThreadAvailableIter t c s).1 =
        { s with next_scan_token_idx_ := s.next_scan_token_idx_ + 1, status_ := c,
                 done_ := true, batch_queue := s.batch_queue.Shutdown }) ∨
    (s.done_ = false ∧ HasScanToken s = true ∧ c.ok = true ∧
      (s.num_active = 0 ∨ (s.num_active < s.max_num_scanner_threads ∧ t = true)) ∧
      (ThreadAvailableIter t c s).1 =
        AddThread { s with next_scan_token_idx_ := s.next_scan_token_idx_ + 1 }
          ⟨decide (s.num_active = 0), some s.next_scan_token_idx_, .OK, false, none,
            .scannerOpen⟩) := by
  by_cases hd : s.done_ = true
  · left
    rw [ThreadAvailableIter_stop t c s (Or.inl hd)]
    simp
  · have hd2 : s.done_ = false := by simpa using hd
    by_cases ht : HasScanToken s = true
    · by_cases hadm : s.num_active = 0 ∨ (s.num_active < s.max_num_scanner_threads ∧ t = true)
      · by_cases hc : c.ok = true
        · right; right
          rw [ThreadAvailableIter_success t c s hd2 ht hadm hc]
          exact ⟨hd2, ht, hc, hadm, rfl⟩
        · have hc2 : c.ok = false := by simpa using hc
          right; left
          rw [ThreadAvailableIter_fail t c s hd2 ht hadm hc2]
          exact ⟨hd2, ht, hc2, hadm, rfl⟩
      · left
        obtain ⟨h1, h2, h3⟩ := ThreadAvailableIter_refuse t c s hd2 ht hadm
        refine ⟨h1, h2, ?_⟩
        rcases h3 with h3 | h3 <;> rw [h3] <;> simp
    · left
      rw [ThreadAvailableIter_stop t c s (Or.inr (by simpa using ht))]
      simp

/-! ## Invariants of a run -/

theorem Inv_initial (tokens : List Nat) (limit max_threads : Int) (capacity : Nat) :
    Inv (initial tokens limit max_threads capacity) := by
  constructor <;> simp [initial]

/-- Every transition keeps the invariant. -/
theorem step_Inv (a : Action) (s s1 : KuduScanNode) (ev : List Event)
    (h : step a s = some (s1, ev)) (hi : Inv s) : Inv s1 := by
  obtain ⟨h1, h2, h3, h4⟩ := hi
  cases a with
  | ThreadAvailable t c =>
    simp only [step, Option.some.injEq, Prod.mk.injEq] at h
    obtain ⟨rfl, -⟩ := h
    rcases ThreadAvailableIter_cases t c s with ⟨e, -, -⟩ | ⟨hd, -, -, -, e⟩ | ⟨hd, -, -, ha, e⟩
    · rw [e]; exact ⟨h1, h2, h3, h4⟩
    · rw [e]
      constructor
      · intro _; rfl
      · intro _; rfl
      · exact h3
      · intro _ _; rfl
    · rw [e]
      have hcnt : (0 : Int) ≤ (s.scanner_threads.countP ScannerThread.active : Int) :=
        Int.ofNat_nonneg _
      constructor
      · intro hs
        exact h1 hs
      · intro hdd
        exact h2 hdd
      · simp only [AddThread, List.countP_append, List.countP_cons, List.countP_nil,
          ScannerThread.active, Nat.cast_add, h3]
        simp
      · intro _ hz
        simp only [AddThread] at hz
        omega
  | Scanner i r =>
    simp only [step] at h
    split at h
    · exact absurd h (by simp)
    · rename_i w hw
      split at h
      · exact absurd h (by simp)
      · rename_i s2 w1 ev1 hrun
        simp only [Option.some.injEq, Prod.mk.injEq] at h
        obtain ⟨rfl, -⟩ := h
        by_cases hpc : w.pc = .exitBlock
        · obtain ⟨e1, e2, e3, e4, e5, e6, e7, -⟩ :=
            RunScannerThread_exit i r s s2 w w1 ev1 hrun hpc
          have hwa : w.active = true := by simp [ScannerThread.active, hpc]
          have hw1 : w1.active = false := by simp [e1, ScannerThread.active]
          have hcnt := countP_set_int ScannerThread.active s.scanner_threads i w w1 hw
          simp only [hwa, hw1] at hcnt
          constructor
          · simp only [e3, e4]
            by_cases hx : (!w.status.ok && s.status_.ok) = true
            · simp [hx]
            · simp only [hx]
              intro hs
              simp [h1 hs]
          · simp only [e5]
            intro hdd
            by_cases hsd : s.done_ = true
            · simp [h2 hsd]
            · simp [hsd, hdd]
          · simp only [e7, e2, hcnt, h3]
            simp
          · simp only [e2, e4]
            intro _ hz
            simp [hz]
        · obtain ⟨e1, e2, e3, e4, -, -, -, e8, -, -, e11, -⟩ :=
            RunScannerThread_frame i r s s2 w w1 ev1 hrun hpc
          have hcnt := countP_set_int ScannerThread.active s.scanner_threads i w w1 hw
          rw [e11] at hcnt
          constructor
          · simp only [e1, e2]; exact h1
          · simp only [e1, e8]; exact h2
          · simp only [e4, e3, hcnt, h3]
            split <;> simp
          · simp only [e4, e3, e1]
            intro hne hz
            apply h4 _ hz
            intro hnil
            rw [hnil] at hw
            simp at hw
  | GetNext pre =>
    simp only [step] at h
    split at h
    · exact absurd h (by simp)
    · rename_i s2 res ev1 hg
      simp only [Option.some.injEq, Prod.mk.injEq] at h
      obtain ⟨rfl, -⟩ := h
      obtain ⟨e1, e2, e3, -, -, -, e7, e8, e9, -, -⟩ := GetNext_frame pre s s2 res ev1 hg
      constructor
      · rw [e1]
        intro hs
        exact e7 (h1 hs)
      · intro hdd
        by_cases hsd : s.done_ = true
        · exact e9 (h2 hsd)
        · exact e8 hdd (by simpa using hsd)
      · rw [e2, e3]; exact h3
      · rw [e2, e3]
        intro hne hz
        exact e7 (h4 hne hz)
  | SetDone =>
    simp only [step, Option.some.injEq, Prod.mk.injEq] at h
    obtain ⟨rfl, -⟩ := h
    have hd := SetDone_done s
    constructor
    · intro _; exact hd
    · intro _
      simp only [SetDone, SetDoneInternal]
      by_cases hsd : s.done_ = true
      · simp [hsd, h2 hsd]
      · simp [hsd, RowBatchQueue.Shutdown]
    · simp only [SetDone, SetDoneInternal]
      by_cases hsd : s.done_ = true <;> simp [hsd, h3]
    · intro _ _; exact hd

/-- What no transition undoes or changes: `done_` stays set, the tokens and the thread
ceiling are fixed, the token index only moves forward, started threads stay started;
and `status_` changes only from `OK`, ending with `done_` set. -/
theorem step_mono (a : Action) (s s1 : KuduScanNode) (ev : List Event)
    (h : step a s = some (s1, ev)) (hi : Inv s) :
    (s.done_ = true → s1.done_ = true) ∧ s1.scan_tokens = s.scan_tokens ∧
    s1.max_num_scanner_threads = s.max_num_scanner_threads ∧
    s.next_scan_token_idx_ ≤ s1.next_scan_token_idx_ ∧
    s.scanner_threads.length ≤ s1.scanner_threads.length ∧
    (s1.status_ = s.status_ ∨ (s.status_ = .OK ∧ s1.done_ = true)) := by
  cases a with
  | ThreadAvailable t c =>
    simp only [step, Option.some.injEq, Prod.mk.injEq] at h
    obtain ⟨rfl, -⟩ := h
    rcases ThreadAvailableIter_cases t c s with ⟨e, -, -⟩ | ⟨hd, -, -, -, e⟩ | ⟨hd, -, -, ha, e⟩
    · rw [e]; simp
    · rw [e]
      refine ⟨fun _ => rfl, rfl, rfl, Nat.le_succ _, le_refl _, Or.inr ⟨?_, rfl⟩⟩
      by_contra hs
      have := hi.status_done hs
      simp [hd] at this
    · rw [e]
      simp [AddThread]
  | Scanner i r =>
    simp only [step] at h
    split at h
    · exact absurd h (by simp)
    · rename_i w hw
      split at h
      · exact absurd h (by simp)
      · rename_i s2 w1 ev1 hrun
        simp only [Option.some.injEq, Prod.mk.injEq] at h
        obtain ⟨rfl, -⟩ := h
        by_cases hpc : w.pc = .exitBlock
        · obtain ⟨-, -, e3, e4, -, -, e7, e8, e9, e10, -⟩ :=
            RunScannerThread_exit i r s s2 w w1 ev1 hrun hpc
          refine ⟨?_, e8, e9, by simp [e10], by simp [e7], ?_⟩
          · intro hd; simp [e4, hd]
          · simp only [e3, e4]
            by_cases hx : (!w.status.ok && s.status_.ok) = true
            · right
              simp only [hx, Bool.or_true, Bool.true_or, and_true]
              simp only [Bool.and_eq_true, Status.ok] at hx
              cases hs : s.status_ with
              | OK => rfl
              | error c => simp [hs] at hx
            · left; simp [hx]
        · obtain ⟨e1, e2, -, e4, e5, e6, e7, -⟩ :=
            RunScannerThread_frame i r s s2 w w1 ev1 hrun hpc
          exact ⟨by simp [e1], e5, e6, e7, by simp [e4], Or.inl e2⟩
  | GetNext pre =>
    simp only [step] at h
    split at h
    · exact absurd h (by simp)
    · rename_i s2 res ev1 hg
      simp only [Option.some.injEq, Prod.mk.injEq] at h
      obtain ⟨rfl, -⟩ := h
      obtain ⟨e1, -, e3, e4, e5, e6, e7, -⟩ := GetNext_frame pre s s2 res ev1 hg
      exact ⟨e7, e4, e5, by omega, by simp [e3], Or.inl e1⟩
  | SetDone =>
    simp only [step, Option.some.injEq, Prod.mk.injEq] at h
    obtain ⟨rfl, -⟩ := h
    refine ⟨fun _ => SetDone_done s, ?_⟩
    simp only [SetDone, SetDoneInternal]
    by_cases hsd : s.done_ = true <;> simp [hsd]

theorem run_cons_some (a : Action) (rest : List Action) (s s2 : KuduScanNode)
    (tr : List Event) (h : run (a :: rest) s = some (s2, tr)) :
    ∃ s1 ev1 ev2, step a s = some (s1, ev1) ∧ run rest s1 = some (s2, ev2) ∧
      tr = ev1 ++ ev2 := by
  simp only [run] at h
  split at h
  · exact absurd h (by simp)
  · rename_i s1 ev1 hs
    split at h
    · exact absurd h (by simp)
    · rename_i s3 ev2 hr
      simp only [Option.some.injEq, Prod.mk.injEq] at h
      obtain ⟨rfl, rfl⟩ := h
      exact ⟨s1, ev1, ev2, hs, hr, rfl⟩

theorem run_append (xs : List Action) :
    ∀ (ys : List Action) (s s1 s2 : KuduScanNode) (t1 t2 : List Event),
      run xs s = some (s1, t1) → run ys s1 = some (s2, t2) →
      run (xs ++ ys) s = some (s2, t1 ++ t2) := by
  induction xs with
  | nil =>
    intro ys s s1 s2 t1 t2 h1 h2
    simp only [run, Option.some.injEq, Prod.mk.injEq] at h1
    obtain ⟨rfl, rfl⟩ := h1
    simpa using h2
  | cons a rest ih =>
    intro ys s s1 s2 t1 t2 h1 h2
    obtain ⟨sa, ev1, ev2, hs, hr, rfl⟩ := run_cons_some a rest s s1 t1 h1
    have := ih ys sa s1 s2 ev2 t2 hr h2
    simp [run, hs, this]

/-- Every run keeps the invariant. -/
theorem run_Inv (sched : List Action) :
    ∀ (s s1 : KuduScanNode) (tr : List Event),
      run sched s = some (s1, tr) → Inv s → Inv s1 := by
  induction sched with
  | nil =>
    intro s s1 tr h hi
    simp only [run, Option.some.injEq, Prod.mk.injEq] at h
    obtain ⟨rfl, -⟩ := h
    exact hi
  | cons a rest ih =>
    intro s s1 tr h hi
    obtain ⟨sa, ev1, ev2, hs, hr, -⟩ := run_cons_some a rest s s1 tr h
    exact ih sa s1 ev2 hr (step_Inv a s sa ev1 hs hi)

theorem Reachable_Inv (s : KuduScanNode) (h : Reachable s) : Inv s := by
  obtain ⟨tokens, limit, mx, cap, sched, tr, hrun⟩ := h
  exact run_Inv sched _ s tr hrun (Inv_initial tokens limit mx cap)

theorem Reachable_initial (tokens : List Nat) (limit max_threads : Int) (capacity : Nat) :
    Reachable (initial tokens limit max_threads capacity) :=
  ⟨tokens, limit, max_threads, capacity, [], [], rfl⟩

theorem Reachable_run (sched : List Action) (s s1 : KuduScanNode) (tr : List Event)
    (hs : Reachable s) (h : run sched s = some (s1, tr)) : Reachable s1 := by
  obtain ⟨tokens, limit, mx, cap, sched0, tr0, hrun⟩ := hs
  exact ⟨tokens, limit, mx, cap, sched0 ++ sched, tr0 ++ tr,
    run_append sched0 sched _ s s1 tr0 tr hrun h⟩

/-- Over a run: `done_` stays set, the configuration is fixed, the token index and the
number of started threads only grow, and a recorded error is kept. -/
theorem run_mono (sched : List Action) :
    ∀ (s s1 : KuduScanNode) (tr : List Event),
      run sched s = some (s1, tr) → Inv s →
      (s.done_ = true → s1.done_ = true) ∧ s1.scan_tokens = s.scan_tokens ∧
      s1.max_num_scanner_threads = s.max_num_scanner_threads ∧
      s.next_scan_token_idx_ ≤ s1.next_scan_token_idx_ ∧
      s.scanner_threads.length ≤ s1.scanner_threads.length ∧
      (∀ c, s.status_ = .error c → s1.status_ = .error c) := by
  induction sched with
  | nil =>
    intro s s1 tr h _
    simp only [run, Option.some.injEq, Prod.mk.injEq] at h
    obtain ⟨rfl, -⟩ := h
    simp
  | cons a rest ih =>
    intro s s1 tr h hi
    obtain ⟨sa, ev1, ev2, hs, hr, -⟩ := run_cons_some a rest s s1 tr h
    obtain ⟨m1, m2, m3, m4, m5, m6⟩ := step_mono a s sa ev1 hs hi
    obtain ⟨n1, n2, n3, n4, n5, n6⟩ := ih sa s1 ev2 hr (step_Inv a s sa ev1 hs hi)
    refine ⟨fun hd => n1 (m1 hd), by rw [n2, m2], by rw [n3, m3], by omega, by omega, ?_⟩
    intro c hc
    apply n6
    rcases m6 with e | ⟨e, -⟩
    · rw [e]; exact hc
    · rw [e] at hc; exact absurd hc (by simp)

/-- C3: `status_` is written once. In every reachable node an error in `status_`
comes with `done_` set; no transition replaces a recorded error, whether a scanner
thread's exit block with its own failure or an iteration of the admission loop (which
stops at `done_` before it could assign a start failure); the same holds over any
further run; and a transition that records an error leaves `done_` set. -/
theorem status_write_once (s : KuduScanNode) (hr : Reachable s) :
    (s.status_ ≠ .OK → s.done_ = true) ∧
    (∀ a s1 ev, step a s = some (s1, ev) →
      (∀ c, s.status_ = .error c → s1.status_ = .error c) ∧
      (s1.status_ ≠ s.status_ → s.status_ = .OK ∧ s1.done_ = true)) ∧
    (∀ t c k, s.status_ = .error k →
      ThreadAvailableIter t c s = (s, [Event.lock, Event.unlock], false)) ∧
    (∀ sched s1 tr, run sched s = some (s1, tr) →
      ∀ c, s.status_ = .error c → s1.status_ = .error c ∧ s1.done_ = true) := by
  have hi := Reachable_Inv s hr
  refine ⟨hi.status_done, ?_, ?_, ?_⟩
  · intro a s1 ev h
    obtain ⟨-, -, -, -, -, m⟩ := step_mono a s s1 ev h hi
    constructor
    · intro c hc
      rcases m with e | ⟨e, -⟩
      · rw [e]; exact hc
      · rw [e] at hc; exact absurd hc (by simp)
    · intro hne
      rcases m with e | e
      · exact absurd e hne
      · exact e
  · intro t c k hk
    exact ThreadAvailableIter_stop t c s (Or.inl (hi.status_done (by simp [hk])))
  · intro sched s1 tr h c hc
    obtain ⟨m1, -, -, -, -, m6⟩ := run_mono sched s s1 tr h hi
    exact ⟨m6 c hc, m1 (hi.status_done (by simp [hc]))⟩

/-- Every transition keeps the active-thread counter within a ceiling of at least 1. -/
theorem step_ceiling (a : Action) (s s1 : KuduScanNode) (ev : List Event)
    (h : step a s = some (s1, ev)) (hc : 1 ≤ s.max_num_scanner_threads)
    (hle : s.num_active ≤ s.max_num_scanner_threads) :
    s1.max_num_scanner_threads = s.max_num_scanner_threads ∧
    s1.num_active ≤ s1.max_num_scanner_threads := by
  cases a with
  | ThreadAvailable t c =>
    simp only [step, Option.some.injEq, Prod.mk.injEq] at h
    obtain ⟨rfl, -⟩ := h
    rcases ThreadAvailableIter_cases t c s with ⟨e, -, -⟩ | ⟨-, -, -, -, e⟩ | ⟨-, -, -, ha, e⟩
    · rw [e]; exact ⟨rfl, hle⟩
    · rw [e]; exact ⟨rfl, hle⟩
    · rw [e]
      simp only [AddThread, true_and]
      omega
  | Scanner i r =>
    simp only [step] at h
    split at h
    · exact absurd h (by simp)
    · rename_i w hw
      split at h
      · exact absurd h (by simp)
      · rename_i s2 w1 ev1 hrun
        simp only [Option.some.injEq, Prod.mk.injEq] at h
        obtain ⟨rfl, -⟩ := h
        by_cases hpc : w.pc = .exitBlock
        · obtain ⟨-, e2, -, -, -, -, -, -, e9, -⟩ :=
            RunScannerThread_exit i r s s2 w w1 ev1 hrun hpc
          simp only [e2, e9, true_and]
          omega
        · obtain ⟨-, -, e3, -, -, e6, -⟩ :=
            RunScannerThread_frame i r s s2 w w1 ev1 hrun hpc
          simp only [e3, e6, true_and]
          exact hle
  | GetNext pre =>
    simp only [step] at h
    split at h
    · exact absurd h (by simp)
    · rename_i s2 res ev1 hg
      simp only [Option.some.injEq, Prod.mk.injEq] at h
      obtain ⟨rfl, -⟩ := h
      obtain ⟨-, e2, -, -, e5, -⟩ := GetNext_frame pre s s2 res ev1 hg
      rw [e2, e5]
      exact ⟨rfl, hle⟩
  | SetDone =>
    simp only [step, Option.some.injEq, Prod.mk.injEq] at h
    obtain ⟨rfl, -⟩ := h
    simp only [SetDone, SetDoneInternal]
    by_cases hsd : s.done_ = true <;> simp [hsd, hle]

theorem run_ceiling (sched : List Action) :
    ∀ (s s1 : KuduScanNode) (tr : List Event),
      run sched s = some (s1, tr) → 1 ≤ s.max_num_scanner_threads →
      s.num_active ≤ s.max_num_scanner_threads →
      s1.max_num_scanner_threads = s.max_num_scanner_threads ∧
      s1.num_active ≤ s1.max_num_scanner_threads := by
  induction sched with
  | nil =>
    intro s s1 tr h _ hle
    simp only [run, Option.some.injEq, Prod.mk.injEq] at h
    obtain ⟨rfl, -⟩ := h
    exact ⟨rfl, hle⟩
  | cons a rest ih =>
    intro s s1 tr h hc hle
    obtain ⟨sa, ev1, ev2, hs, hr, -⟩ := run_cons_some a rest s s1 tr h
    obtain ⟨m1, m2⟩ := step_ceiling a s sa ev1 hs hc hle
    obtain ⟨n1, n2⟩ := ih sa s1 ev2 hr (by rw [m1]; exact hc) m2
    exact ⟨by rw [n1, m1], n2⟩

/-- C9: the concurrency ceiling. With a ceiling of at least 1, in every node reached
by a run the active-thread counter, which is the number of threads that have not yet
run their exit block, is at most the ceiling; and an iteration of the admission loop
that starts a thread while others are active does so only with the counter below the
ceiling and an optional slot granted by the pool. -/
theorem concurrency_ceiling (tokens : List Nat) (limit ceiling : Int) (capacity : Nat)
    (sched : List Action) (s : KuduScanNode) (tr : List Event) (hc : 1 ≤ ceiling)
    (h : run sched (initial tokens limit ceiling capacity) = some (s, tr)) :
    s.max_num_scanner_threads = ceiling ∧ s.num_active ≤ ceiling ∧
    (s.scanner_threads.countP ScannerThread.active : Int) ≤ ceiling ∧
    ∀ t c, (ThreadAvailableIter t c s).1.scanner_threads ≠ s.scanner_threads →
      s.num_active ≠ 0 →
      s.num_active < ceiling ∧ t = true ∧
      Event.TryAcquireThreadToken true ∈ (ThreadAvailableIter t c s).2.1 ∧
      Event.AcquireThreadToken ∉ (ThreadAvailableIter t c s).2.1 := by
  have hi := run_Inv sched _ s tr h (Inv_initial tokens limit ceiling capacity)
  obtain ⟨m1, m2⟩ := run_ceiling sched _ s tr h (by simpa [initial] using hc)
    (by simp only [initial]; omega)
  have hmax : s.max_num_scanner_threads = ceiling := by simpa [initial] using m1
  refine ⟨hmax, by rw [← hmax]; exact m2, by rw [← hi.active_count, ← hmax]; exact m2, ?_⟩
  intro t c hne h0
  rcases ThreadAvailableIter_cases t c s with ⟨e, -, -⟩ | ⟨-, -, -, -, e⟩ |
    ⟨hd, ht, hok, ha, -⟩
  · rw [e] at hne; exact absurd rfl hne
  · rw [e] at hne; exact absurd rfl hne
  · rcases ha with ha | ⟨ha, htt⟩
    · exact absurd ha h0
    · rw [ThreadAvailableIter_success t c s hd ht (Or.inr ⟨ha, htt⟩) hok]
      refine ⟨by rw [← hmax]; exact ha, htt, ?_, ?_⟩ <;> simp [h0]

theorem scenarioC_run :
    run scenarioC_schedule (initial [0, 1] 0 2 4) = some (scenarioC_final, scenarioC_trace) :=
  rfl

theorem scenarioC_final_reachable : Reachable scenarioC_final :=
  ⟨[0, 1], 0, 2, 4, scenarioC_schedule, scenarioC_trace, scenarioC_run⟩

theorem scenarioC_before_reachable : Reachable scenarioC_before :=
  ⟨[0, 1], 0, 2, 4, scenarioC_start, _, rfl⟩

theorem limitError_final_reachable : Reachable limitError_final :=
  ⟨[0], 5, 1, 4, limitError_schedule, _, rfl⟩

/-- Witness for C9: scenario C, ceiling 2. -/
theorem concurrency_ceiling_witness :
    (1 : Int) ≤ 2 ∧ scenarioC_final.num_active ≤ 2 :=
  ⟨by decide,
    (concurrency_ceiling [0, 1] 0 2 4 scenarioC_schedule scenarioC_final scenarioC_trace
      (by decide) scenarioC_run).2.1⟩

/-- Witness for C3: at the end of scenario C the start failure is recorded with
`done_` set, and a further scanner error could not replace it. -/
theorem status_write_once_witness :
    Reachable scenarioC_final ∧ scenarioC_final.status_ = .error 42 ∧
    scenarioC_final.done_ = true :=
  ⟨scenarioC_final_reachable, rfl,
    (status_write_once scenarioC_final scenarioC_final_reachable).1 (by decide)⟩

/-! ## Scanner-thread steps: their events -/

/-- The events of a step inside `ProcessScanToken`: no slot call, no thread start, no
token claim, no `SetDone`; and nothing is enqueued into a queue that is shut down. -/
theorem ProcessScanToken_events (r : ScanResult) (s s1 : KuduScanNode)
    (w w1 : ScannerThread) (ev : List Event)
    (h : ProcessScanToken r s w = some (s1, w1, ev)) :
    poolCallsUnlocked false ev = true ∧
    (∀ e ∈ ev, e.isPoolCall = false ∧ e ≠ Event.SetDone ∧ e ≠ Event.AddThread) ∧
    claimedTokens ev = [] ∧
    (s.batch_queue.shutdown = true →
      s1.batch_queue.contents = s.batch_queue.contents ∧ Event.Enqueue true ∉ ev) ∧
    ((∀ e ∈ ev, e.isError = false) → w1.status = .OK ∨ w1.status = w.status) ∧
    ((∀ e ∈ ev, e.isError = false) → w1.pc ≠ .exitBlock) := by
  unfold ProcessScanToken at h
  split at h
  · split at h
    · simp only [Option.some.injEq, Prod.mk.injEq] at h
      obtain ⟨rfl, rfl, rfl⟩ := h
      simp_all [poolCallsUnlocked, Event.isPoolCall, claimedTokens, Event.isError]
    · split at h <;>
      · simp only [Option.some.injEq, Prod.mk.injEq] at h
        obtain ⟨rfl, rfl, rfl⟩ := h
        simp_all [poolCallsUnlocked, Event.isPoolCall, claimedTokens, Event.isError]
  · split at h <;>
    · simp only [Option.some.injEq, Prod.mk.injEq] at h
      obtain ⟨rfl, rfl, rfl⟩ := h
      simp_all [poolCallsUnlocked, Event.isPoolCall, claimedTokens, Event.isError]
  · split at h <;>
    · simp only [Option.some.injEq, Prod.mk.injEq] at h
      obtain ⟨rfl, rfl, rfl⟩ := h
      simp_all [poolCallsUnlocked, Event.isPoolCall, claimedTokens, Event.isError]
  · split at h <;>
    · simp only [Option.some.injEq, Prod.mk.injEq] at h
      obtain ⟨rfl, rfl, rfl⟩ := h
      simp_all [poolCallsUnlocked, Event.isPoolCall, claimedTokens, Event.isError]
  · split at h
    · exact absurd h (by simp)
    · unfold RowBatchQueue.EnqueueBatchWithTimeout at h
      split at h
      · rename_i heq
        split at heq <;> simp at heq
        simp only [Option.some.injEq, Prod.mk.injEq] at h
        obtain ⟨rfl, rfl, rfl⟩ := h
        obtain ⟨-, rfl⟩ := heq
        simp_all [poolCallsUnlocked, Event.isPoolCall, claimedTokens, Event.isError]
      · simp only [Option.some.injEq, Prod.mk.injEq] at h
        obtain ⟨rfl, rfl, rfl⟩ := h
        simp_all [poolCallsUnlocked, Event.isPoolCall, claimedTokens, Event.isError]
  · exact absurd h (by simp)

/-- The events of a scanner-thread step: every slot call is made with `lock_` not
held; no slot is acquired, no thread started, `SetDone` is not called; a token claim
is reported exactly when the token index advances; nothing is enqueued into a queue
that is shut down. -/
theorem RunScannerThread_events (i : Nat) (r : ScanResult) (s s1 : KuduScanNode)
    (w w1 : ScannerThread) (ev : List Event)
    (h : RunScannerThread i r s w = some (s1, w1, ev)) :
    poolCallsUnlocked false ev = true ∧
    (∀ e ∈ ev, e.isThreadCreate = false ∧ e ≠ Event.AcquireThreadToken ∧
      (∀ g, e ≠ Event.TryAcquireThreadToken g) ∧ e ≠ Event.SetDone ∧
      e ≠ Event.AddThread) ∧
    claimedTokens ev =
      (List.range' s.next_scan_token_idx_
        (s1.next_scan_token_idx_ - s.next_scan_token_idx_)).map (fun t => (t, i)) ∧
    (s.batch_queue.shutdown = true →
      s1.batch_queue.contents = s.batch_queue.contents ∧ Event.Enqueue true ∉ ev) := by
  unfold RunScannerThread at h
  split at h
  · split at h <;>
    · simp only [Option.some.injEq, Prod.mk.injEq] at h
      obtain ⟨rfl, rfl, rfl⟩ := h
      simp [poolCallsUnlocked, Event.isPoolCall, claimedTokens, Event.isThreadCreate]
  · split at h <;>
    · simp only [Option.some.injEq, Prod.mk.injEq] at h
      obtain ⟨rfl, rfl, rfl⟩ := h
      simp [poolCallsUnlocked, Event.isPoolCall, claimedTokens, Event.isThreadCreate]
  · split at h
    · simp only [Option.some.injEq, Prod.mk.injEq] at h
      obtain ⟨rfl, rfl, rfl⟩ := h
      simp [poolCallsUnlocked, Event.isPoolCall, claimedTokens, Event.isThreadCreate]
    · by_cases hd : s.done_ = true <;> by_cases ht : HasScanToken s = true <;>
        by_cases hf : w.first_thread = true <;>
      · simp only [hd, ht, hf, GetNextScanToken, Bool.not_true, Bool.not_false, if_true,
          if_false, Bool.false_eq_true, Option.some.injEq, Prod.mk.injEq] at h
        obtain ⟨rfl, rfl, rfl⟩ := h
        simp [poolCallsUnlocked, Event.isPoolCall, claimedTokens, Event.isThreadCreate]
  · simp only [Option.some.injEq, Prod.mk.injEq] at h
    obtain ⟨rfl, rfl, rfl⟩ := h
    simp only [DecrementNumActive, SetDoneInternal, RowBatchQueue.Shutdown]
    by_cases h1 : (!w.status.ok && s.status_.ok) = true <;>
      by_cases h2 : s.done_ = true <;>
        by_cases h3 : s.num_active - 1 = 0 <;>
          simp [h1, h2, h3, poolCallsUnlocked, Event.isPoolCall, claimedTokens,
            Event.isThreadCreate]
  · simp only [Option.some.injEq, Prod.mk.injEq] at h
    obtain ⟨rfl, rfl, rfl⟩ := h
    simp [poolCallsUnlocked, Event.isPoolCall, claimedTokens, Event.isThreadCreate]
  · exact absurd h (by simp)
  · obtain ⟨e1, e2, e3, e4, -, -⟩ := ProcessScanToken_events r s s1 w w1 ev h
    obtain ⟨-, -, -, -, -, -, f7, -⟩ := ProcessScanToken_frame r s s1 w w1 ev h
    refine ⟨e1, ?_, ?_, e4⟩
    · intro e he
      obtain ⟨a1, a2, a3⟩ := e2 e he
      refine ⟨?_, ?_, ?_, a2, a3⟩
      · cases e <;> simp_all [Event.isPoolCall, Event.isThreadCreate]
      · intro hx; rw [hx] at a1; simp [Event.isPoolCall] at a1
      · intro g hx; rw [hx] at a1; simp [Event.isPoolCall] at a1
    · rw [e3, f7]; simp

/-! ## After `done_` -/

theorem SetDone_events (s : KuduScanNode) :
    ∀ e ∈ (SetDone s).2,
      e = Event.lock ∨ e = Event.unlock ∨ e = Event.SetDone ∨
        (e = Event.Shutdown ∧ s.done_ = false) := by
  unfold SetDone SetDoneInternal
  by_cases h : s.done_ = true <;> simp [h]

theorem GetNext_events (pre : Status) (s s1 : KuduScanNode) (res : GetNextResult)
    (ev : List Event) (h : GetNext pre s = some (s1, res, ev)) :
    ∀ e ∈ ev, e = Event.lock ∨ e = Event.unlock ∨ e = Event.SetDone ∨
      (e = Event.Shutdown ∧ s.done_ = false) := by
  unfold GetNext at h
  split at h
  · simp only [Option.some.injEq, Prod.mk.injEq] at h
    obtain ⟨-, -, rfl⟩ := h
    simp
  · split at h
    · simp only [Option.some.injEq, Prod.mk.injEq] at h
      obtain ⟨-, -, rfl⟩ := h
      simp
    · split at h
      · exact absurd h (by simp)
      · dsimp only at h
        split at h
        · simp only [Option.some.injEq, Prod.mk.injEq] at h
          obtain ⟨-, -, rfl⟩ := h
          intro e he
          rcases List.mem_append.1 he with he | he
          · have := SetDone_events _ e he
            simpa using this
          · simp at he
            rcases he with he | he <;> simp [he]
        · simp only [Option.some.injEq, Prod.mk.injEq] at h
          obtain ⟨-, -, rfl⟩ := h
          simp
      · simp only [Option.some.injEq, Prod.mk.injEq] at h
        obtain ⟨-, -, rfl⟩ := h
        simp

/-- A scanner-thread step in a node with `done_` set and the queue shut down. -/
theorem RunScannerThread_afterDone (i : Nat) (r : ScanResult) (s s1 : KuduScanNode)
    (w w1 : ScannerThread) (ev : List Event)
    (h : RunScannerThread i r s w = some (s1, w1, ev)) (hd : s.done_ = true)
    (hq : s.batch_queue.shutdown = true) :
    (∀ e ∈ ev, e.afterDone = true) ∧ s1.batch_queue = s.batch_queue := by
  unfold RunScannerThread at h
  split at h
  · split at h <;>
    · simp only [Option.some.injEq, Prod.mk.injEq] at h
      obtain ⟨rfl, rfl, rfl⟩ := h
      simp [Event.afterDone]
  · split at h <;>
    · simp only [Option.some.injEq, Prod.mk.injEq] at h
      obtain ⟨rfl, rfl, rfl⟩ := h
      simp [Event.afterDone]
  · split at h
    · simp only [Option.some.injEq, Prod.mk.injEq] at h
      obtain ⟨rfl, rfl, rfl⟩ := h
      simp [Event.afterDone]
    · by_cases hf : w.first_thread = true <;>
      · simp only [hd, hf, Bool.not_true, if_true, if_false, Bool.false_eq_true,
          Option.some.injEq, Prod.mk.injEq] at h
        obtain ⟨rfl, rfl, rfl⟩ := h
        simp [Event.afterDone]
  · simp only [Option.some.injEq, Prod.mk.injEq] at h
    obtain ⟨rfl, rfl, rfl⟩ := h
    simp only [DecrementNumActive, SetDoneInternal, RowBatchQueue.Shutdown]
    by_cases h1 : (!w.status.ok && s.status_.ok) = true <;>
      by_cases h3 : s.num_active - 1 = 0 <;>
        simp [h1, hd, h3, Event.afterDone]
  · simp only [Option.some.injEq, Prod.mk.injEq] at h
    obtain ⟨rfl, rfl, rfl⟩ := h
    simp [Event.afterDone]
  · exact absurd h (by simp)
  · unfold ProcessScanToken at h
    split at h
    · split at h
      · simp only [Option.some.injEq, Prod.mk.injEq] at h
        obtain ⟨rfl, rfl, rfl⟩ := h
        simp [Event.afterDone]
      · split at h <;>
        · simp only [Option.some.injEq, Prod.mk.injEq] at h
          obtain ⟨rfl, rfl, rfl⟩ := h
          simp [Event.afterDone]
    · split at h <;>
      · simp only [Option.some.injEq, Prod.mk.injEq] at h
        obtain ⟨rfl, rfl, rfl⟩ := h
        simp [Event.afterDone]
    · split at h <;>
      · simp only [Option.some.injEq, Prod.mk.injEq] at h
        obtain ⟨rfl, rfl, rfl⟩ := h
        simp [Event.afterDone]
    · split at h <;>
      · simp only [Option.some.injEq, Prod.mk.injEq] at h
        obtain ⟨rfl, rfl, rfl⟩ := h
        simp [Event.afterDone]
    · split at h
      · exact absurd h (by simp)
      · simp only [RowBatchQueue.EnqueueBatchWithTimeout, hq, Bool.true_or, if_true,
          Option.some.injEq, Prod.mk.injEq] at h
        obtain ⟨rfl, rfl, rfl⟩ := h
        simp [Event.afterDone]
    · exact absurd h (by simp)

/-- A transition from a node with `done_` set: `done_` stays, no thread is added, the
queue only loses batches, and the events are those of a run that is over. -/
theorem step_afterDone (a : Action) (s s1 : KuduScanNode) (ev : List Event)
    (h : step a s = some (s1, ev)) (hi : Inv s) (hd : s.done_ = true) :
    s1.done_ = true ∧
    s1.scanner_threads.length = s.scanner_threads.length ∧
    (∃ k, s1.batch_queue.contents = s.batch_queue.contents.drop k) ∧
    (∀ e ∈ ev, e.afterDone = true) := by
  have hq := hi.done_shutdown hd
  cases a with
  | ThreadAvailable t c =>
    simp only [step, Option.some.injEq, Prod.mk.injEq] at h
    obtain ⟨rfl, rfl⟩ := h
    rw [ThreadAvailableIter_stop t c s (Or.inl hd)]
    exact ⟨hd, rfl, ⟨0, rfl⟩, by simp [Event.afterDone]⟩
  | Scanner i r =>
    simp only [step] at h
    split at h
    · exact absurd h (by simp)
    · rename_i w hw
      split at h
      · exact absurd h (by simp)
      · rename_i s2 w1 ev1 hrun
        simp only [Option.some.injEq, Prod.mk.injEq] at h
        obtain ⟨rfl, rfl⟩ := h
        obtain ⟨a1, a2⟩ := RunScannerThread_afterDone i r s s2 w w1 ev1 hrun hd hq
        by_cases hpc : w.pc = .exitBlock
        · obtain ⟨-, -, -, e4, -, -, e7, -⟩ :=
            RunScannerThread_exit i r s s2 w w1 ev1 hrun hpc
          exact ⟨by simp [e4, hd], by simp [e7], ⟨0, by simp [a2]⟩, a1⟩
        · obtain ⟨e1, -, -, e4, -⟩ :=
            RunScannerThread_frame i r s s2 w w1 ev1 hrun hpc
          exact ⟨by simp [e1, hd], by simp [e4], ⟨0, by simp [a2]⟩, a1⟩
  | GetNext pre =>
    simp only [step] at h
    split at h
    · exact absurd h (by simp)
    · rename_i s2 res ev1 hg
      simp only [Option.some.injEq, Prod.mk.injEq] at h
      obtain ⟨rfl, rfl⟩ := h
      obtain ⟨-, -, e3, -, -, -, e7, -, -, -, e11⟩ := GetNext_frame pre s s2 res ev1 hg
      refine ⟨e7 hd, by rw [e3], e11, ?_⟩
      intro e he
      rcases GetNext_events pre s s2 res ev1 hg e he with h1 | h1 | h1 | ⟨-, h1⟩
      · simp [h1, Event.afterDone]
      · simp [h1, Event.afterDone]
      · simp [h1, Event.afterDone]
      · rw [hd] at h1; exact absurd h1 (by simp)
  | SetDone =>
    simp only [step, Option.some.injEq, Prod.mk.injEq] at h
    obtain ⟨rfl, rfl⟩ := h
    rw [SetDoneInternal_of_done s hd]
    exact ⟨hd, rfl, ⟨0, rfl⟩, by simp [Event.afterDone]⟩

/-- A run from a node with `done_` set: `done_` stays, no thread is added, the queue
only loses batches, and all events are those of a run that is over. -/
theorem run_afterDone (sched : List Action) :
    ∀ (s s1 : KuduScanNode) (tr : List Event),
      run sched s = some (s1, tr) → Inv s → s.done_ = true →
      s1.done_ = true ∧ s1.scanner_threads.length = s.scanner_threads.length ∧
      (∃ k, s1.batch_queue.contents = s.batch_queue.contents.drop k) ∧
      (∀ e ∈ tr, e.afterDone = true) := by
  induction sched with
  | nil =>
    intro s s1 tr h _ hd
    simp only [run, Option.some.injEq, Prod.mk.injEq] at h
    obtain ⟨rfl, rfl⟩ := h
    exact ⟨hd, rfl, ⟨0, rfl⟩, by simp⟩
  | cons a rest ih =>
    intro s s1 tr h hi hd
    obtain ⟨sa, ev1, ev2, hs, hr, rfl⟩ := run_cons_some a rest s s1 tr h
    obtain ⟨m1, m2, ⟨k1, m3⟩, m4⟩ := step_afterDone a s sa ev1 hs hi hd
    obtain ⟨n1, n2, ⟨k2, n3⟩, n4⟩ := ih sa s1 ev2 hr (step_Inv a s sa ev1 hs hi) m1
    refine ⟨n1, by rw [n2, m2], ⟨k1 + k2, ?_⟩, ?_⟩
    · rw [n3, m3, List.drop_drop]
    · intro e he
      rcases List.mem_append.1 he with he | he
      · exact m4 e he
      · exact n4 e he

/-! ## Admission: start failure, first thread, locking -/

theorem ThreadAvailableCb_of_done (ta : Nat → Bool) (cr : Nat → Status) (fuel : Nat)
    (s : KuduScanNode) (hd : s.done_ = true) :
    ThreadAvailableCb ta cr (fuel + 1) s = some (s, [Event.lock, Event.unlock]) := by
  simp [ThreadAvailableCb, ThreadAvailableIter_stop _ _ s (Or.inl hd)]

/-- C6: a failed thread start aborts the run. When an iteration of the admission loop
reaches `Thread::Create` and it fails, the slot just acquired (mandatory for a first
thread, optional otherwise) is released with the same flag and with callbacks
skipped, `status_` is the start failure, `done_` is true, the active-thread counter
and the threads are unchanged, and the loop stops; the whole callback ends there; and
over any further run no thread start is attempted and no thread is added, every later
callback returning at once. -/
theorem start_failure_aborts (s : KuduScanNode) (t : Bool) (code : Nat)
    (hr : Reachable s) (hd : s.done_ = false) (ht : HasScanToken s = true)
    (hadm : s.num_active = 0 ∨ (s.num_active < s.max_num_scanner_threads ∧ t = true)) :
    (ThreadAvailableIter t (.error code) s).2.2 = false ∧
    (ThreadAvailableIter t (.error code) s).2.1 =
      [Event.lock,
        if s.num_active = 0 then Event.AcquireThreadToken
        else Event.TryAcquireThreadToken true,
        Event.GetNextScanToken s.scanner_threads.length s.next_scan_token_idx_,
        Event.ThreadCreate (decide (s.num_active = 0)) (some s.next_scan_token_idx_) (.error code),
        Event.ReleaseThreadToken (decide (s.num_active = 0)) true,
        Event.Shutdown, Event.unlock] ∧
    (ThreadAvailableIter t (.error code) s).1.status_ = .error code ∧
    (ThreadAvailableIter t (.error code) s).1.done_ = true ∧
    (ThreadAvailableIter t (.error code) s).1.num_active = s.num_active ∧
    (ThreadAvailableIter t (.error code) s).1.scanner_threads = s.scanner_threads ∧
    (∀ ta cr fuel, ta 0 = t → cr 0 = .error code →
      ThreadAvailableCb ta cr (fuel + 1) s =
        some ((ThreadAvailableIter t (.error code) s).1,
          (ThreadAvailableIter t (.error code) s).2.1)) ∧
    (∀ sched s2 tr, run sched (ThreadAvailableIter t (.error code) s).1 = some (s2, tr) →
      (∀ e ∈ tr, e.isThreadCreate = false) ∧
      s2.scanner_threads.length = s.scanner_threads.length ∧
      s2.status_ = .error code ∧ s2.done_ = true ∧
      ∀ ta cr fuel,
        ThreadAvailableCb ta cr (fuel + 1) s2 = some (s2, [Event.lock, Event.unlock])) := by
  have hi := Reachable_Inv s hr
  have hf := ThreadAvailableIter_fail t (.error code) s hd ht hadm rfl
  have hi1 : Inv (ThreadAvailableIter t (.error code) s).1 :=
    step_Inv (.ThreadAvailable t (.error code)) s _ _ rfl hi
  refine ⟨by rw [hf], by rw [hf], by rw [hf], by rw [hf], by rw [hf], by rw [hf], ?_, ?_⟩
  · intro ta cr fuel h1 h2
    simp only [ThreadAvailableCb, h1, h2]
    rw [hf]
  · intro sched s2 tr hrun
    have hd1 : (ThreadAvailableIter t (.error code) s).1.done_ = true := by rw [hf]
    have hs1 : (ThreadAvailableIter t (.error code) s).1.status_ = .error code := by rw [hf]
    have hl1 : (ThreadAvailableIter t (.error code) s).1.scanner_threads =
        s.scanner_threads := by rw [hf]
    obtain ⟨n1, n2, -, n4⟩ := run_afterDone sched _ s2 tr hrun hi1 hd1
    obtain ⟨-, -, -, -, -, m6⟩ := run_mono sched _ s2 tr hrun hi1
    refine ⟨?_, by rw [n2, hl1], m6 code hs1, n1,
      fun ta cr fuel => ThreadAvailableCb_of_done ta cr fuel s2 n1⟩
    intro e he
    have := n4 e he
    cases e <;> simp_all [Event.afterDone, Event.isThreadCreate]

/-- Witness for C6: the second admission attempt of scenario C. -/
theorem start_failure_aborts_witness :
    Reachable scenarioC_before ∧ scenarioC_before.done_ = false ∧
    (ThreadAvailableIter true (.error 42) scenarioC_before).1.status_ = .error 42 ∧
    (ThreadAvailableIter true (.error 42) scenarioC_before).1.done_ = true :=
  ⟨scenarioC_before_reachable, rfl,
    (start_failure_aborts scenarioC_before true 42 scenarioC_before_reachable rfl rfl
      (Or.inr ⟨by decide, rfl⟩)).2.2.1,
    (start_failure_aborts scenarioC_before true 42 scenarioC_before_reachable rfl rfl
      (Or.inr ⟨by decide, rfl⟩)).2.2.2.1⟩

/-- C10: only the very first thread of a run is mandatory. In every reachable node,
once a thread has been started a zero active-thread counter means `done_` is set; so
an iteration of the admission loop acquires a mandatory slot, or attempts to start a
thread with `first_thread` true, only when no thread has been started before. -/
theorem first_thread_only_once (s : KuduScanNode) (hr : Reachable s) :
    (s.scanner_threads ≠ [] → s.num_active = 0 → s.done_ = true) ∧
    ∀ t c,
      (Event.AcquireThreadToken ∈ (ThreadAvailableIter t c s).2.1 ∨
        (∃ tok st, Event.ThreadCreate true tok st ∈ (ThreadAvailableIter t c s).2.1) ∨
        (∃ w ∈ (ThreadAvailableIter t c s).1.scanner_threads,
          w ∉ s.scanner_threads ∧ w.first_thread = true)) →
      s.scanner_threads = [] := by
  have hi := Reachable_Inv s hr
  refine ⟨hi.started_done, ?_⟩
  intro t c hev
  by_contra hne
  by_cases hd : s.done_ = true
  · rw [ThreadAvailableIter_stop t c s (Or.inl hd)] at hev
    simp at hev
    obtain ⟨w, hw, hn, -⟩ := hev
    exact hn hw
  · have hd2 : s.done_ = false := by simpa using hd
    have h0 : s.num_active ≠ 0 := fun h => hd (hi.started_done hne h)
    by_cases ht : HasScanToken s = true
    · by_cases hadm : s.num_active = 0 ∨ (s.num_active < s.max_num_scanner_threads ∧ t = true)
      · by_cases hc : c.ok = true
        · rw [ThreadAvailableIter_success t c s hd2 ht hadm hc] at hev
          simp [h0, AddThread] at hev
          obtain ⟨w, hw, hn, hf⟩ := hev
          rcases hw with hw | hw
          · exact hn hw
          · rw [hw] at hf
            simp at hf
        · rw [ThreadAvailableIter_fail t c s hd2 ht hadm (by simpa using hc)] at hev
          simp [h0] at hev
          obtain ⟨w, hw, hn, -⟩ := hev
          exact hn hw
      · obtain ⟨h1, -, h3⟩ := ThreadAvailableIter_refuse t c s hd2 ht hadm
        rw [h1] at hev
        rcases h3 with h3 | h3 <;> rw [h3] at hev <;> simp at hev <;>
        · obtain ⟨w, hw, hn, -⟩ := hev
          exact hn hw
    · rw [ThreadAvailableIter_stop t c s (Or.inr (by simpa using ht))] at hev
      simp at hev
      obtain ⟨w, hw, hn, -⟩ := hev
      exact hn hw

/-- Witness for C10: at the end of scenario C a thread has been started, the counter
is zero and `done_` is set. -/
theorem first_thread_only_once_witness :
    Reachable scenarioC_final ∧ scenarioC_final.scanner_threads ≠ [] ∧
    scenarioC_final.num_active = 0 ∧ scenarioC_final.done_ = true :=
  ⟨scenarioC_final_reachable, by decide, rfl,
    (first_thread_only_once scenarioC_final scenarioC_final_reachable).1 (by decide) rfl⟩

theorem poolCallsLocked_append (a : List Event) :
    ∀ (held : Bool) (b : List Event),
      poolCallsLocked held (a ++ b) =
        (poolCallsLocked held a && poolCallsLocked (lockAfter held a) b) := by
  induction a with
  | nil => intro held b; simp [poolCallsLocked, lockAfter]
  | cons e rest ih =>
    intro held b
    cases e <;> simp [poolCallsLocked, lockAfter, ih, Bool.and_assoc]

theorem lockAfter_append (a : List Event) :
    ∀ (held : Bool) (b : List Event),
      lockAfter held (a ++ b) = lockAfter (lockAfter held a) b := by
  induction a with
  | nil => intro held b; simp [lockAfter]
  | cons e rest ih =>
    intro held b
    cases e <;> simp [lockAfter, ih]

/-- One iteration of the admission loop makes all its slot calls and the thread
creation with `lock_` held, releases the lock at its end, and releases a slot only
with callbacks skipped. -/
theorem ThreadAvailableIter_locked (t : Bool) (c : Status) (s : KuduScanNode) :
    poolCallsLocked false (ThreadAvailableIter t c s).2.1 = true ∧
    lockAfter false (ThreadAvailableIter t c s).2.1 = false ∧
    ∀ req skip, Event.ReleaseThreadToken req skip ∈ (ThreadAvailableIter t c s).2.1 →
      skip = true := by
  by_cases hd : s.done_ = true
  · rw [ThreadAvailableIter_stop t c s (Or.inl hd)]
    simp [poolCallsLocked, lockAfter]
  · have hd2 : s.done_ = false := by simpa using hd
    by_cases ht : HasScanToken s = true
    · by_cases hadm : s.num_active = 0 ∨ (s.num_active < s.max_num_scanner_threads ∧ t = true)
      · by_cases hc : c.ok = true
        · rw [ThreadAvailableIter_success t c s hd2 ht hadm hc]
          by_cases h0 : s.num_active = 0 <;>
            simp [h0, poolCallsLocked, lockAfter, Event.isPoolCall]
        · rw [ThreadAvailableIter_fail t c s hd2 ht hadm (by simpa using hc)]
          by_cases h0 : s.num_active = 0 <;>
            simp [h0, poolCallsLocked, lockAfter, Event.isPoolCall]
      · obtain ⟨-, -, h3⟩ := ThreadAvailableIter_refuse t c s hd2 ht hadm
        rcases h3 with h3 | h3 <;> rw [h3] <;>
          simp [poolCallsLocked, lockAfter, Event.isPoolCall]
    · rw [ThreadAvailableIter_stop t c s (Or.inr (by simpa using ht))]
      simp [poolCallsLocked, lockAfter]

/-- The whole admission callback makes all its slot calls and thread creations with
`lock_` held, and releases slots only with callbacks skipped. -/
theorem ThreadAvailableCb_locked (fuel : Nat) :
    ∀ (ta : Nat → Bool) (cr : Nat → Status) (s s1 : KuduScanNode) (ev : List Event),
      ThreadAvailableCb ta cr fuel s = some (s1, ev) →
      poolCallsLocked false ev = true ∧ lockAfter false ev = false ∧
      ∀ req skip, Event.ReleaseThreadToken req skip ∈ ev → skip = true := by
  induction fuel with
  | zero => intro ta cr s s1 ev h; simp [ThreadAvailableCb] at h
  | succ n ih =>
    intro ta cr s s1 ev h
    obtain ⟨l1, l2, l3⟩ := ThreadAvailableIter_locked (ta 0) (cr 0) s
    simp only [ThreadAvailableCb] at h
    split at h
    · rename_i sa eva heq
      simp only [Option.some.injEq, Prod.mk.injEq] at h
      obtain ⟨-, rfl⟩ := h
      rw [heq] at l1 l2 l3
      exact ⟨l1, l2, l3⟩
    · rename_i sa eva heq
      rw [heq] at l1 l2 l3
      simp only at l1 l2 l3
      split at h
      · exact absurd h (by simp)
      · rename_i sb evb hrec
        simp only [Option.some.injEq, Prod.mk.injEq] at h
        obtain ⟨-, rfl⟩ := h
        obtain ⟨r1, r2, r3⟩ := ih _ _ sa sb evb hrec
        refine ⟨?_, ?_, ?_⟩
        · rw [poolCallsLocked_append, l1, l2, r1]; rfl
        · rw [lockAfter_append, l2, r2]
        · intro req skip hmem
          rcases List.mem_append.1 hmem with hm | hm
          · exact l3 req skip hm
          · exact r3 req skip hm

/-- C7, as the code has it: a scanner thread makes its slot calls with `lock_` not
held (the exit block makes none, and the slot is released in the step after it, with
callbacks not skipped); the admission callback makes every slot call and every thread
creation with `lock_` held, and releases a slot only with callbacks skipped. -/
theorem lock_discipline :
    (∀ i r s w s1 w1 ev, RunScannerThread i r s w = some (s1, w1, ev) →
      poolCallsUnlocked false ev = true ∧
      (w.pc = .exitBlock → ∀ e ∈ ev, e.isPoolCall = false) ∧
      (w.pc = .release → ev = [Event.ReleaseThreadToken w.first_thread false])) ∧
    (∀ t c s, poolCallsLocked false (ThreadAvailableIter t c s).2.1 = true ∧
      ∀ req skip, Event.ReleaseThreadToken req skip ∈ (ThreadAvailableIter t c s).2.1 →
        skip = true) ∧
    (∀ fuel ta cr s s1 ev, ThreadAvailableCb ta cr fuel s = some (s1, ev) →
      poolCallsLocked false ev = true ∧
      ∀ req skip, Event.ReleaseThreadToken req skip ∈ ev → skip = true) := by
  refine ⟨?_, ?_, ?_⟩
  · intro i r s w s1 w1 ev h
    refine ⟨(RunScannerThread_events i r s s1 w w1 ev h).1, ?_, ?_⟩
    · intro hpc
      unfold RunScannerThread at h
      simp only [hpc, Option.some.injEq, Prod.mk.injEq] at h
      obtain ⟨-, -, rfl⟩ := h
      simp only [DecrementNumActive, SetDoneInternal]
      by_cases h1 : (!w.status.ok && s.status_.ok) = true <;>
        by_cases h2 : s.done_ = true <;>
          by_cases h3 : s.num_active - 1 = 0 <;>
            simp [h1, h2, h3, Event.isPoolCall]
    · intro hpc
      unfold RunScannerThread at h
      simp only [hpc, Option.some.injEq, Prod.mk.injEq] at h
      obtain ⟨-, -, rfl⟩ := h
      rfl
  · intro t c s
    obtain ⟨l1, -, l3⟩ := ThreadAvailableIter_locked t c s
    exact ⟨l1, l3⟩
  · intro fuel ta cr s s1 ev h
    obtain ⟨l1, -, l3⟩ := ThreadAvailableCb_locked fuel ta cr s s1 ev h
    exact ⟨l1, l3⟩

/-- Witness for C7 as the code has it: the release step of the first thread at the
end of scenario D's admission, and the callback on the node just after `Open`. -/
theorem lock_discipline_witness :
    poolCallsUnlocked false [Event.ReleaseThreadToken true false] = true ∧
    poolCallsLocked false
      [Event.lock, Event.AcquireThreadToken, Event.GetNextScanToken 0 0,
        Event.ThreadCreate true (some 0) .OK, Event.AddThread, Event.unlock,
        Event.lock, Event.unlock] = true :=
  ⟨(lock_discipline.1 0 scanOK scenarioD ⟨true, some 0, .OK, true, none, .release⟩
      scenarioD ⟨true, some 0, .OK, true, none, .finished⟩
      [Event.ReleaseThreadToken true false] rfl).1,
    (lock_discipline.2.2 2 (fun _ => false) (fun _ => .OK) (initial [0] 0 1 4)
      (AddThread { initial [0] 0 1 4 with next_scan_token_idx_ := 1 }
        ⟨true, some 0, .OK, false, none, .scannerOpen⟩)
      _ rfl).1⟩

/-- C7 as stated fails: the first iteration of the admission loop on a node with one
token acquires the mandatory slot and creates the thread while holding `lock_`. -/
theorem admission_holds_lock :
    (ThreadAvailableIter false .OK (initial [0] 0 1 4)).2.1 =
      [Event.lock, Event.AcquireThreadToken, Event.GetNextScanToken 0 0,
        Event.ThreadCreate true (some 0) .OK, Event.AddThread, Event.unlock] ∧
    poolCallsUnlocked false (ThreadAvailableIter false .OK (initial [0] 0 1 4)).2.1 = false :=
  ⟨rfl, rfl⟩

/-! ## The consumer: which status a call returns -/

/-- Past its entry checks and its early exit, `GetNext` returns `status_`, which the
call itself does not change; and it returns as soon as a batch is buffered or the
queue is shut down. -/
theorem GetNext_returns_status (s : KuduScanNode) (hl : ReachedLimit s = false)
    (htok : NumScanTokens s ≠ 0) :
    (∀ s1 res ev, GetNext .OK s = some (s1, res, ev) →
      res.status = s.status_ ∧ s1.status_ = s.status_ ∧
      (res.row_batch = none → res.eos = some true) ∧
      (s.batch_queue.contents = [] → res.eos = some true ∧ res.row_batch = none) ∧
      (s.batch_queue.contents ≠ [] → res.row_batch.isSome = true)) ∧
    ((s.batch_queue.contents ≠ [] ∨ s.batch_queue.shutdown = true) →
      (GetNext .OK s).isSome = true) := by
  constructor
  · intro s1 res ev h
    have hf := GetNext_frame .OK s s1 res ev h
    refine ⟨?_, hf.1, ?_⟩
    · unfold GetNext at h
      simp only [Status.ok, hl, htok, Bool.not_true, Bool.false_eq_true, if_false,
        decide_False, Bool.or_self] at h
      split at h
      · exact absurd h (by simp)
      · split at h
        · simp only [Option.some.injEq, Prod.mk.injEq] at h
          obtain ⟨-, rfl, -⟩ := h
          simp only [SetDone, SetDoneInternal]
          split <;> rfl
        · simp only [Option.some.injEq, Prod.mk.injEq] at h
          obtain ⟨-, rfl, -⟩ := h
          rfl
      · simp only [Option.some.injEq, Prod.mk.injEq] at h
        obtain ⟨-, rfl, -⟩ := h
        rfl
    · unfold GetNext at h
      simp only [Status.ok, hl, htok, Bool.not_true, Bool.false_eq_true, if_false,
        decide_False, Bool.or_self] at h
      unfold RowBatchQueue.GetBatch at h
      cases hq : s.batch_queue.contents with
      | nil =>
        simp only [hq] at h
        by_cases hs : s.batch_queue.shutdown = true
        · simp only [hs, if_true, Option.some.injEq, Prod.mk.injEq] at h
          obtain ⟨-, rfl, -⟩ := h
          simp
        · simp [hs] at h
      | cons b rest =>
        simp only [hq] at h
        split at h
        · simp only [Option.some.injEq, Prod.mk.injEq] at h
          obtain ⟨-, rfl, -⟩ := h
          simp
        · simp only [Option.some.injEq, Prod.mk.injEq] at h
          obtain ⟨-, rfl, -⟩ := h
          simp
  · intro hq
    unfold GetNext
    simp only [Status.ok, hl, htok, Bool.not_true, Bool.false_eq_true, if_false,
      decide_False, Bool.or_self]
    unfold RowBatchQueue.GetBatch
    cases hc : s.batch_queue.contents with
    | nil =>
      rcases hq with hq | hq
      · exact absurd hc hq
      · simp [hq]
    | cons b rest =>
      simp only
      split <;> rfl

/-- With no scan token, no transition starts a thread or records an error. -/
theorem run_noTokens (sched : List Action) :
    ∀ (s s1 : KuduScanNode) (tr : List Event),
      run sched s = some (s1, tr) → s.scan_tokens = [] → s.scanner_threads = [] →
      s.status_ = .OK →
      s1.scan_tokens = [] ∧ s1.scanner_threads = [] ∧ s1.status_ = .OK := by
  induction sched with
  | nil =>
    intro s s1 tr h h1 h2 h3
    simp only [run, Option.some.injEq, Prod.mk.injEq] at h
    obtain ⟨rfl, -⟩ := h
    exact ⟨h1, h2, h3⟩
  | cons a rest ih =>
    intro s s1 tr h h1 h2 h3
    obtain ⟨sa, ev1, ev2, hs, hr, -⟩ := run_cons_some a rest s s1 tr h
    have key : sa.scan_tokens = [] ∧ sa.scanner_threads = [] ∧ sa.status_ = .OK := by
      cases a with
      | ThreadAvailable t c =>
        simp only [step, Option.some.injEq, Prod.mk.injEq] at hs
        obtain ⟨rfl, -⟩ := hs
        rw [ThreadAvailableIter_stop t c s (Or.inr (by simp [HasScanToken, h1]))]
        exact ⟨h1, h2, h3⟩
      | Scanner i r => simp [step, h2] at hs
      | GetNext pre =>
        simp only [step] at hs
        split at hs
        · exact absurd hs (by simp)
        · rename_i s2 res ev3 hg
          simp only [Option.some.injEq, Prod.mk.injEq] at hs
          obtain ⟨rfl, -⟩ := hs
          obtain ⟨e1, -, e3, e4, -⟩ := GetNext_frame pre s s2 res ev3 hg
          exact ⟨by rw [e4, h1], by rw [e3, h2], by rw [e1, h3]⟩
      | SetDone =>
        simp only [step, Option.some.injEq, Prod.mk.injEq] at hs
        obtain ⟨rfl, -⟩ := hs
        unfold SetDoneInternal
        split <;> exact ⟨h1, h2, h3⟩
    exact ih sa s1 ev2 hr key.1 key.2.1 key.2.2

/-- C2, as the code has it: a `GetNext` call whose entry checks pass and that is made
before the row limit is reached returns the recorded `status_`, whether it hands back
a batch or reports end of stream from an empty closed queue; with no scan token the
call returns `OK` with end of stream, and `status_` is then `OK`; a call made when the
row limit has already been reached returns `OK` with end of stream whatever `status_`
holds; and a call whose entry checks fail returns their error. -/
theorem GetNext_status (s : KuduScanNode) (hr : Reachable s) :
    (ReachedLimit s = false → NumScanTokens s ≠ 0 →
      (∀ s1 res ev, GetNext .OK s = some (s1, res, ev) →
        res.status = s.status_ ∧ s1.status_ = s.status_) ∧
      ((s.batch_queue.contents ≠ [] ∨ s.batch_queue.shutdown = true) →
        (GetNext .OK s).isSome = true)) ∧
    (ReachedLimit s = false → NumScanTokens s = 0 →
      GetNext .OK s = some (s, ⟨.OK, some true, none⟩, []) ∧ s.status_ = .OK) ∧
    (ReachedLimit s = true →
      GetNext .OK s = some (s, ⟨.OK, some true, none⟩, [])) ∧
    (∀ pre, pre.ok = false → GetNext pre s = some (s, ⟨pre, none, none⟩, [])) := by
  refine ⟨?_, ?_, ?_, ?_⟩
  · intro hl htok
    obtain ⟨h1, h2⟩ := GetNext_returns_status s hl htok
    exact ⟨fun s1 res ev h => ⟨(h1 s1 res ev h).1, (h1 s1 res ev h).2.1⟩, h2⟩
  · intro hl htok
    refine ⟨by simp [GetNext, Status.ok, hl, htok], ?_⟩
    obtain ⟨tokens, limit, mx, cap, sched, tr, hrun⟩ := hr
    have hmono := run_mono sched _ s tr hrun (Inv_initial tokens limit mx cap)
    have ht : tokens = [] := by
      have : s.scan_tokens = tokens := by simpa [initial] using hmono.2.1
      simp only [NumScanTokens, this] at htok
      exact List.length_eq_zero.1 htok
    subst ht
    exact (run_noTokens sched _ s tr hrun rfl rfl rfl).2.2
  · intro hl
    simp [GetNext, Status.ok, hl]
  · intro pre hp
    simp [GetNext, hp]

theorem limitError_before_reachable : Reachable limitError_before :=
  ⟨[0], 5, 1, 4, limitError_schedule.take 11, _, rfl⟩

/-- Witness for C2 as the code has it: with the scanner error recorded, the batch
still buffered and the limit not yet reached, the consumer's call returns. -/
theorem GetNext_status_witness :
    Reachable limitError_before ∧ limitError_before.status_ = .error 7 ∧
    (GetNext .OK limitError_before).isSome = true :=
  ⟨limitError_before_reachable, rfl,
    ((GetNext_status limitError_before limitError_before_reachable).1
      (by decide) (by decide)).2 (Or.inl (by decide))⟩

/-- C2 as stated fails: in a reachable node with a scanner error recorded and the row
limit reached, `GetNext` returns `OK`, not the error. -/
theorem GetNext_hides_status_after_limit :
    Reachable limitError_final ∧ limitError_final.status_ = .error 7 ∧
    ReachedLimit limitError_final = true ∧
    GetNext .OK limitError_final = some (limitError_final, ⟨.OK, some true, none⟩, []) :=
  ⟨limitError_final_reachable, rfl, rfl, rfl⟩

/-! ## Scenario C -/

theorem claimedTokens_append (a : List Event) :
    ∀ b : List Event, claimedTokens (a ++ b) = claimedTokens a ++ claimedTokens b := by
  induction a with
  | nil => intro b; simp [claimedTokens]
  | cons e rest ih =>
    intro b
    cases e <;> simp [claimedTokens, ih]

theorem claimedTokens_of_no_claim (ev : List Event)
    (h : ∀ e ∈ ev, ∀ i k, e ≠ Event.GetNextScanToken i k) : claimedTokens ev = [] := by
  induction ev with
  | nil => rfl
  | cons e rest ih =>
    have hr := ih (fun e he => h e (List.mem_cons_of_mem _ he))
    have he := h e (List.mem_cons_self _ _)
    cases e <;> simp_all [claimedTokens]

/-- The token claims of one transition are the tokens from the old index up to the
new one, in order, each going to a thread of the node (when no thread start fails). -/
theorem step_claims (a : Action) (s s1 : KuduScanNode) (ev : List Event)
    (h : step a s = some (s1, ev)) :
    s.next_scan_token_idx_ ≤ s1.next_scan_token_idx_ ∧
    (claimedTokens ev).map Prod.fst =
      List.range' s.next_scan_token_idx_
        (s1.next_scan_token_idx_ - s.next_scan_token_idx_) ∧
    ((∀ e ∈ ev, e.isError = false) →
      ∀ c ∈ claimedTokens ev, c.2 < s1.scanner_threads.length) := by
  cases a with
  | ThreadAvailable t c =>
    simp only [step, Option.some.injEq, Prod.mk.injEq] at h
    obtain ⟨rfl, rfl⟩ := h
    by_cases hd : s.done_ = true
    · rw [ThreadAvailableIter_stop t c s (Or.inl hd)]
      simp [claimedTokens]
    · have hd2 : s.done_ = false := by simpa using hd
      by_cases ht : HasScanToken s = true
      · by_cases hadm : s.num_active = 0 ∨
            (s.num_active < s.max_num_scanner_threads ∧ t = true)
        · by_cases hc : c.ok = true
          · rw [ThreadAvailableIter_success t c s hd2 ht hadm hc]
            by_cases h0 : s.num_active = 0 <;> simp [h0, claimedTokens, AddThread]
          · rw [ThreadAvailableIter_fail t c s hd2 ht hadm (by simpa using hc)]
            by_cases h0 : s.num_active = 0 <;>
              simp [h0, claimedTokens, Event.isError, hc]
        · obtain ⟨h1, -, h3⟩ := ThreadAvailableIter_refuse t c s hd2 ht hadm
          rw [h1]
          rcases h3 with h3 | h3 <;> rw [h3] <;> simp [claimedTokens]
      · rw [ThreadAvailableIter_stop t c s (Or.inr (by simpa using ht))]
        simp [claimedTokens]
  | Scanner i r =>
    simp only [step] at h
    split at h
    · exact absurd h (by simp)
    · rename_i w hw
      split at h
      · exact absurd h (by simp)
      · rename_i s2 w1 ev1 hrun
        simp only [Option.some.injEq, Prod.mk.injEq] at h
        obtain ⟨rfl, rfl⟩ := h
        obtain ⟨-, -, e3, -⟩ := RunScannerThread_events i r s s2 w w1 ev1 hrun
        have hlt : i < s.scanner_threads.length := by
          by_contra hge
          rw [List.getElem?_eq_none (by omega)] at hw
          simp at hw
        have hidx : s.next_scan_token_idx_ ≤ s2.next_scan_token_idx_ ∧
            s2.scanner_threads = s.scanner_threads := by
          by_cases hpc : w.pc = .exitBlock
          · obtain ⟨-, -, -, -, -, -, e7, -, -, e10, -⟩ :=
              RunScannerThread_exit i r s s2 w w1 ev1 hrun hpc
            exact ⟨by omega, e7⟩
          · obtain ⟨-, -, -, e4, -, -, e7, -⟩ :=
              RunScannerThread_frame i r s s2 w w1 ev1 hrun hpc
            exact ⟨e7, e4⟩
        refine ⟨hidx.1, ?_, ?_⟩
        · rw [e3]
          simp [List.map_map, Function.comp_def]
        · intro _ c hc
          rw [e3] at hc
          simp only [List.mem_map] at hc
          obtain ⟨k, -, rfl⟩ := hc
          simp only [List.length_set, hidx.2]
          exact hlt
  | GetNext pre =>
    simp only [step] at h
    split at h
    · exact absurd h (by simp)
    · rename_i s2 res ev1 hg
      simp only [Option.some.injEq, Prod.mk.injEq] at h
      obtain ⟨rfl, rfl⟩ := h
      obtain ⟨-, -, -, -, -, e6, -⟩ := GetNext_frame pre s s2 res ev1 hg
      have hcl : claimedTokens ev1 = [] := by
        apply claimedTokens_of_no_claim
        intro e he i k
        rcases GetNext_events pre s s2 res ev1 hg e he with h1 | h1 | h1 | ⟨h1, -⟩ <;>
          simp [h1]
      simp [hcl, e6]
  | SetDone =>
    simp only [step, Option.some.injEq, Prod.mk.injEq] at h
    obtain ⟨rfl, rfl⟩ := h
    simp only [SetDoneInternal]
    by_cases hsd : s.done_ = true <;> simp [hsd, claimedTokens]

/-- The token claims of a run are the tokens from the first index up to the last one,
in order, each claimed by a started thread (when no thread start fails). -/
theorem run_claims (sched : List Action) :
    ∀ (s s1 : KuduScanNode) (tr : List Event), run sched s = some (s1, tr) → Inv s →
      s.next_scan_token_idx_ ≤ s1.next_scan_token_idx_ ∧
      (claimedTokens tr).map Prod.fst =
        List.range' s.next_scan_token_idx_
          (s1.next_scan_token_idx_ - s.next_scan_token_idx_) ∧
      ((∀ e ∈ tr, e.isError = false) →
        ∀ c ∈ claimedTokens tr, c.2 < s1.scanner_threads.length) := by
  induction sched with
  | nil =>
    intro s s1 tr h _
    simp only [run, Option.some.injEq, Prod.mk.injEq] at h
    obtain ⟨rfl, rfl⟩ := h
    simp [claimedTokens]
  | cons a rest ih =>
    intro s s1 tr h hi
    obtain ⟨sa, ev1, ev2, hs, hr, rfl⟩ := run_cons_some a rest s s1 tr h
    obtain ⟨m1, m2, m3⟩ := step_claims a s sa ev1 hs
    have hia := step_Inv a s sa ev1 hs hi
    obtain ⟨n1, n2, n3⟩ := ih sa s1 ev2 hr hia
    have hlen := (run_mono rest sa s1 ev2 hr hia).2.2.2.2.1
    refine ⟨by omega, ?_, ?_⟩
    · rw [claimedTokens_append, List.map_append, m2, n2]
      have hsplit : s1.next_scan_token_idx_ - s.next_scan_token_idx_ =
          (s1.next_scan_token_idx_ - sa.next_scan_token_idx_) +
            (sa.next_scan_token_idx_ - s.next_scan_token_idx_) := by omega
      have hmid : sa.next_scan_token_idx_ =
          s.next_scan_token_idx_ + (sa.next_scan_token_idx_ - s.next_scan_token_idx_) := by
        omega
      rw [hsplit, ← List.range'_append_1, ← hmid]
    · intro hne c hc
      rw [claimedTokens_append] at hc
      rcases List.mem_append.1 hc with hc | hc
      · have := m3 (fun e he => hne e (List.mem_append_left _ he)) c hc
        omega
      · exact n3 (fun e he => hne e (List.mem_append_right _ he)) c hc

/-! ## Dispatch exactness -/

theorem Status.eq_OK_of_ok (st : Status) (h : st.ok = true) : st = .OK := by
  cases st with
  | OK => rfl
  | error c => simp [Status.ok] at h

/-- A scanner-thread step without a failing call keeps the local status `OK`; and the
mandatory thread comes to stand before its exit block or to hold no token only when
`done_` is set or no token is left. -/
theorem RunScannerThread_benign (i : Nat) (r : ScanResult) (s s1 : KuduScanNode)
    (w w1 : ScannerThread) (ev : List Event)
    (h : RunScannerThread i r s w = some (s1, w1, ev))
    (hne : ∀ e ∈ ev, e.isError = false) (hw : w.status = .OK) :
    w1.status = .OK ∧
    (w.first_thread = true → w.pc ≠ .exitBlock →
      (w1.active = false ∨ w1.pc = .exitBlock ∨ w1.scan_token = none) →
      (w.active = false ∨ w.pc = .exitBlock ∨ w.scan_token = none) ∨ s.done_ = true ∨
        HasScanToken s1 = false) := by
  unfold RunScannerThread at h
  split at h
  · split at h
    · rename_i hok
      simp only [Option.some.injEq, Prod.mk.injEq] at h
      obtain ⟨rfl, rfl, rfl⟩ := h
      refine ⟨Status.eq_OK_of_ok _ hok, ?_⟩
      intro _ _ hprem
      rcases hprem with hp | hp | hp
      · simp [ScannerThread.active] at hp
      · simp at hp
      · exact Or.inl (Or.inr (Or.inr hp))
    · rename_i hok
      simp only [Option.some.injEq, Prod.mk.injEq] at h
      obtain ⟨rfl, rfl, rfl⟩ := h
      simp [Event.isError] at hne
      exact absurd hne hok
  · split at h
    · rename_i hc
      simp only [Option.some.injEq, Prod.mk.injEq] at h
      obtain ⟨rfl, rfl, rfl⟩ := h
      simp only [Bool.and_eq_true, Bool.not_eq_true', Option.isSome_iff_ne_none] at hc
      simp [ScannerThread.active, hw, hc.2]
    · rename_i hc
      simp only [Option.some.injEq, Prod.mk.injEq] at h
      obtain ⟨rfl, rfl, rfl⟩ := h
      refine ⟨hw, ?_⟩
      intro _ _ _
      by_cases hd : s.done_ = true
      · exact Or.inr (Or.inl hd)
      · left; right; right
        cases hst : w.scan_token with
        | none => rfl
        | some k => simp [hd, hst] at hc
  · split at h
    · rename_i hc
      simp only [Option.some.injEq, Prod.mk.injEq] at h
      obtain ⟨rfl, rfl, rfl⟩ := h
      refine ⟨hw, ?_⟩
      intro hf
      simp [hf] at hc
    · by_cases hd : s.done_ = true <;> by_cases ht : HasScanToken s = true <;>
      · simp only [hd, ht, GetNextScanToken, Bool.not_true, Bool.not_false, if_true,
          if_false, Bool.false_eq_true, Option.some.injEq, Prod.mk.injEq] at h
        obtain ⟨rfl, rfl, rfl⟩ := h
        simp_all [ScannerThread.active]
  · simp only [Option.some.injEq, Prod.mk.injEq] at h
    obtain ⟨rfl, rfl, rfl⟩ := h
    simp_all
  · simp only [Option.some.injEq, Prod.mk.injEq] at h
    obtain ⟨rfl, rfl, rfl⟩ := h
    simp_all [ScannerThread.active]
  · exact absurd h (by simp)
  · rename_i hp1 hp2 hp3 hp4 hp5 hp6
    obtain ⟨-, -, -, -, e5, e6⟩ := ProcessScanToken_events r s s1 w w1 ev h
    obtain ⟨-, -, -, -, -, -, -, -, -, -, f11, -, -, f14⟩ :=
      ProcessScanToken_frame r s s1 w w1 ev h
    refine ⟨?_, ?_⟩
    · rcases e5 hne with e | e
      · exact e
      · rw [e, hw]
    · intro _ _ hprem
      rcases hprem with hp | hp | hp
      · rw [f11] at hp; exact absurd hp (by simp)
      · exact absurd hp (e6 hne)
      · left; right; right
        rw [← f14]; exact hp

theorem two_active (l : List ScannerThread) (w0 w : ScannerThread) (i : Nat)
    (h0 : l.head? = some w0) (hi : l[i]? = some w) (hne : i ≠ 0)
    (a0 : w0.active = true) (a : w.active = true) :
    (2 : Int) ≤ (l.countP ScannerThread.active : Int) := by
  cases l with
  | nil => simp at h0
  | cons x rest =>
    simp only [List.head?_cons, Option.some.injEq] at h0
    subst h0
    cases i with
    | zero => exact absurd rfl hne
    | succ j =>
      simp only [List.getElem?_cons_succ] at hi
      have hmem : w ∈ rest := List.getElem?_mem hi
      have hpos : 0 < rest.countP ScannerThread.active :=
        List.countP_pos_iff.2 ⟨w, hmem, a⟩
      simp only [List.countP_cons, a0, if_true, Nat.cast_add, Nat.cast_one]
      omega

theorem HasScanToken_false_mono (s s1 : KuduScanNode)
    (h : HasScanToken s = false) (ht : s1.scan_tokens = s.scan_tokens)
    (hidx : s.next_scan_token_idx_ ≤ s1.next_scan_token_idx_) :
    HasScanToken s1 = false := by
  simp only [HasScanToken, decide_eq_false_iff_not, ht] at h ⊢
  omega

theorem head?_set (l : List ScannerThread) (i : Nat) (w1 : ScannerThread) :
    (l.set i w1).head? = if i = 0 then l.head?.map (fun _ => w1) else l.head? := by
  cases l with
  | nil => simp
  | cons x rest =>
    cases i with
    | zero => simp
    | succ j => simp

theorem DispatchInv_initial (tokens : List Nat) (limit max_threads : Int) (capacity : Nat) :
    DispatchInv (initial tokens limit max_threads capacity) := by
  constructor <;> simp [initial]

/-- A transition in which no call fails and the consumer does not call `SetDone`
keeps the dispatch invariant. -/
theorem step_DispatchInv (a : Action) (s s1 : KuduScanNode) (ev : List Event)
    (h : step a s = some (s1, ev)) (hi : Inv s) (hdi : DispatchInv s)
    (hne : ∀ e ∈ ev, e.isError = false) (hsd : Event.SetDone ∉ ev) :
    DispatchInv s1 := by
  obtain ⟨d1, d2, d3⟩ := hdi
  cases a with
  | ThreadAvailable t c =>
    simp only [step, Option.some.injEq, Prod.mk.injEq] at h
    obtain ⟨rfl, rfl⟩ := h
    by_cases hd : s.done_ = true
    · rw [ThreadAvailableIter_stop t c s (Or.inl hd)]
      exact ⟨d1, d2, d3⟩
    · have hd2 : s.done_ = false := by simpa using hd
      by_cases ht : HasScanToken s = true
      · by_cases hadm : s.num_active = 0 ∨
            (s.num_active < s.max_num_scanner_threads ∧ t = true)
        · by_cases hc : c.ok = true
          · rw [ThreadAvailableIter_success t c s hd2 ht hadm hc]
            constructor
            · intro w hw
              simp only [AddThread, List.mem_append, List.mem_singleton] at hw
              rcases hw with hw | hw
              · exact d1 w hw
              · rw [hw]
            · intro hdd
              simp [AddThread, hd2] at hdd
            · intro w hw
              cases hl : s.scanner_threads with
              | nil =>
                have h0 : s.num_active = 0 := by
                  rw [hi.active_count, hl]; rfl
                simp only [AddThread, hl, List.nil_append, List.head?_cons,
                  Option.some.injEq] at hw
                subst hw
                simp [h0, ScannerThread.active]
              | cons x rest =>
                simp only [AddThread, hl, List.cons_append, List.head?_cons,
                  Option.some.injEq] at hw
                subst hw
                obtain ⟨f1, f2⟩ := d3 x (by simp [hl])
                refine ⟨f1, ?_⟩
                intro hp
                have := f2 hp
                rw [ht] at this
                exact absurd this (by simp)
          · exfalso
            have hc2 : c.ok = false := by simpa using hc
            rw [ThreadAvailableIter_fail t c s hd2 ht hadm hc2] at hne
            have := hne (Event.ThreadCreate (decide (s.num_active = 0))
              (some s.next_scan_token_idx_) c) (by simp)
            simp [Event.isError, hc2] at this
        · obtain ⟨h1, -, -⟩ := ThreadAvailableIter_refuse t c s hd2 ht hadm
          rw [h1]
          exact ⟨d1, d2, d3⟩
      · rw [ThreadAvailableIter_stop t c s (Or.inr (by simpa using ht))]
        exact ⟨d1, d2, d3⟩
  | Scanner i r =>
    simp only [step] at h
    split at h
    · exact absurd h (by simp)
    · rename_i w hw
      split at h
      · exact absurd h (by simp)
      · rename_i s2 w1 ev1 hrun
        simp only [Option.some.injEq, Prod.mk.injEq] at h
        obtain ⟨rfl, rfl⟩ := h
        have hwmem : w ∈ s.scanner_threads := List.getElem?_mem hw
        have hwok := d1 w hwmem
        obtain ⟨b1, b2⟩ := RunScannerThread_benign i r s s2 w w1 ev1 hrun hne hwok
        have hlocal : ∀ x ∈ s.scanner_threads.set i w1, x.status = .OK := by
          intro x hx
          rcases List.mem_or_eq_of_mem_set hx with hx | hx
          · exact d1 x hx
          · rw [hx]; exact b1
        by_cases hpc : w.pc = .exitBlock
        · obtain ⟨e1, e2, e3, e4, -, -, e7, e8, -, e10, -⟩ :=
            RunScannerThread_exit i r s s2 w w1 ev1 hrun hpc
          have hwa : w.active = true := by simp [ScannerThread.active, hpc]
          have hhas : HasScanToken s2 = HasScanToken s := by
            simp [HasScanToken, e8, e10]
          -- the tokens are exhausted when this exit sets `done_`
          have hex : s2.done_ = true → HasScanToken s = false := by
            intro hdd
            rw [e4] at hdd
            simp only [hwok, Status.ok, Bool.not_true, Bool.false_and, Bool.or_false,
              Bool.or_eq_true, decide_eq_true_eq] at hdd
            rcases hdd with hdd | hdd
            · exact d2 hdd
            · cases hh : s.scanner_threads.head? with
              | none =>
                rw [List.head?_eq_none_iff] at hh
                rw [hh] at hwmem
                simp at hwmem
              | some w0 =>
                obtain ⟨-, f2⟩ := d3 w0 hh
                by_cases hi0 : i = 0
                · subst hi0
                  have : w0 = w := by
                    cases hl : s.scanner_threads with
                    | nil => simp [hl] at hh
                    | cons x rest =>
                      simp only [hl, List.head?_cons, Option.some.injEq] at hh
                      simp only [hl, List.getElem?_cons_zero, Option.some.injEq] at hw
                      rw [← hh, ← hw]
                  subst this
                  exact f2 (Or.inr (Or.inl hpc))
                · by_cases ha0 : w0.active = true
                  · have := two_active s.scanner_threads w0 w i hh hw hi0 ha0 hwa
                    have hc := hi.active_count
                    omega
                  · exact f2 (Or.inl (by simpa using ha0))
          constructor
          · simp only [e7]; exact hlocal
          · intro hdd
            show HasScanToken { s2 with scanner_threads := _ } = false
            have := hex hdd
            simp only [HasScanToken, e8, e10] at this ⊢
            exact this
          · intro x hx
            simp only [e7, head?_set] at hx
            by_cases hi0 : i = 0
            · subst hi0
              simp only [if_true] at hx
              cases hl : s.scanner_threads with
              | nil => simp [hl] at hx
              | cons y rest =>
                simp only [hl, List.head?_cons, Option.map_some', Option.some.injEq] at hx
                simp only [hl, List.getElem?_cons_zero, Option.some.injEq] at hw
                subst hw
                subst hx
                obtain ⟨f1, f2⟩ := d3 y (by simp [hl])
                refine ⟨by rw [e1]; exact f1, ?_⟩
                intro _
                have := f2 (Or.inr (Or.inl hpc))
                simp only [HasScanToken, e8, e10] at this ⊢
                exact this
            · simp only [hi0, if_false] at hx
              obtain ⟨f1, f2⟩ := d3 x hx
              refine ⟨f1, ?_⟩
              intro hp
              have := f2 hp
              simp only [HasScanToken, e8, e10] at this ⊢
              exact this
        · obtain ⟨e1, -, -, e4, e5, -, e7, -, -, -, e11, e12⟩ :=
            RunScannerThread_frame i r s s2 w w1 ev1 hrun hpc
          have hmono : HasScanToken s = false → HasScanToken s2 = false :=
            fun hh => HasScanToken_false_mono s s2 hh e5 e7
          constructor
          · simp only [e4]; exact hlocal
          · intro hdd
            have hdd2 : s.done_ = true := by rw [← e1]; exact hdd
            exact hmono (d2 hdd2)
          · intro x hx
            simp only [e4, head?_set] at hx
            by_cases hi0 : i = 0
            · subst hi0
              simp only [if_true] at hx
              cases hl : s.scanner_threads with
              | nil => simp [hl] at hx
              | cons y rest =>
                simp only [hl, List.head?_cons, Option.map_some', Option.some.injEq] at hx
                simp only [hl, List.getElem?_cons_zero, Option.some.injEq] at hw
                subst hw
                subst hx
                obtain ⟨f1, f2⟩ := d3 y (by simp [hl])
                refine ⟨by rw [e12]; exact f1, ?_⟩
                intro hp
                rcases b2 f1 hpc hp with hq | hq | hq
                · exact hmono (f2 hq)
                · exact hmono (d2 hq)
                · exact hq
            · simp only [hi0, if_false] at hx
              obtain ⟨f1, f2⟩ := d3 x hx
              exact ⟨f1, fun hp => hmono (f2 hp)⟩
  | GetNext pre =>
    simp only [step] at h
    split at h
    · exact absurd h (by simp)
    · rename_i s2 res ev1 hg
      simp only [Option.some.injEq, Prod.mk.injEq] at h
      obtain ⟨rfl, rfl⟩ := h
      obtain ⟨-, -, e3, e4, -, e6, -, -, -, e10, -⟩ := GetNext_frame pre s s2 res ev1 hg
      have hhas : HasScanToken s2 = HasScanToken s := by simp [HasScanToken, e4, e6]
      constructor
      · rw [e3]; exact d1
      · intro hdd
        rw [hhas]
        exact d2 (by rw [← e10 hsd]; exact hdd)
      · intro x hx
        rw [e3] at hx
        rw [hhas]
        exact d3 x hx
  | SetDone =>
    simp only [step, Option.some.injEq, Prod.mk.injEq] at h
    obtain ⟨-, rfl⟩ := h
    exact absurd (by simp) hsd

theorem run_DispatchInv (sched : List Action) :
    ∀ (s s1 : KuduScanNode) (tr : List Event), run sched s = some (s1, tr) →
      Inv s → DispatchInv s → (∀ e ∈ tr, e.isError = false) → Event.SetDone ∉ tr →
      DispatchInv s1 := by
  induction sched with
  | nil =>
    intro s s1 tr h _ hdi _ _
    simp only [run, Option.some.injEq, Prod.mk.injEq] at h
    obtain ⟨rfl, -⟩ := h
    exact hdi
  | cons a rest ih =>
    intro s s1 tr h hi hdi hne hsd
    obtain ⟨sa, ev1, ev2, hs, hr, rfl⟩ := run_cons_some a rest s s1 tr h
    have hda := step_DispatchInv a s sa ev1 hs hi hdi
      (fun e he => hne e (List.mem_append_left _ he))
      (fun hm => hsd (List.mem_append_left _ hm))
    exact ih sa s1 ev2 hr (step_Inv a s sa ev1 hs hi) hda
      (fun e he => hne e (List.mem_append_right _ he))
      (fun hm => hsd (List.mem_append_right _ hm))

/-- A scanner-thread step moves the token index only by claiming a token that is
there. -/
theorem RunScannerThread_idx (i : Nat) (r : ScanResult) (s s1 : KuduScanNode)
    (w w1 : ScannerThread) (ev : List Event)
    (h : RunScannerThread i r s w = some (s1, w1, ev)) :
    s1.next_scan_token_idx_ = s.next_scan_token_idx_ ∨
    (HasScanToken s = true ∧ s1.next_scan_token_idx_ = s.next_scan_token_idx_ + 1) := by
  by_cases hpc : w.pc = .exitBlock
  · exact Or.inl (RunScannerThread_exit i r s s1 w w1 ev h hpc).2.2.2.2.2.2.2.2.2.1
  · by_cases hpa : w.pc = .afterToken
    · unfold RunScannerThread at h
      simp only [hpa] at h
      split at h
      · simp only [Option.some.injEq, Prod.mk.injEq] at h
        obtain ⟨rfl, -, -⟩ := h
        exact Or.inl rfl
      · by_cases hd : s.done_ = true <;> by_cases ht : HasScanToken s = true <;>
        · simp only [hd, ht, GetNextScanToken, Bool.not_true, Bool.not_false, if_true,
            if_false, Bool.false_eq_true, Option.some.injEq, Prod.mk.injEq] at h
          obtain ⟨rfl, -, -⟩ := h
          simp [ht]
    · left
      unfold RunScannerThread at h
      split at h
      · split at h <;>
        · simp only [Option.some.injEq, Prod.mk.injEq] at h
          obtain ⟨rfl, -, -⟩ := h
          rfl
      · split at h <;>
        · simp only [Option.some.injEq, Prod.mk.injEq] at h
          obtain ⟨rfl, -, -⟩ := h
          rfl
      · rename_i hx
        exact absurd hx hpa
      · rename_i hx
        exact absurd hx hpc
      · simp only [Option.some.injEq, Prod.mk.injEq] at h
        obtain ⟨rfl, -, -⟩ := h
        rfl
      · exact absurd h (by simp)
      · exact (ProcessScanToken_frame r s s1 w w1 ev h).2.2.2.2.2.2.1

/-- The token index never passes the number of tokens. -/
theorem run_idx_le (sched : List Action) :
    ∀ (s s1 : KuduScanNode) (tr : List Event), run sched s = some (s1, tr) → Inv s →
      s.next_scan_token_idx_ ≤ s.scan_tokens.length →
      s1.next_scan_token_idx_ ≤ s1.scan_tokens.length := by
  induction sched with
  | nil =>
    intro s s1 tr h _ hle
    simp only [run, Option.some.injEq, Prod.mk.injEq] at h
    obtain ⟨rfl, -⟩ := h
    exact hle
  | cons a rest ih =>
    intro s s1 tr h hi hle
    obtain ⟨sa, ev1, ev2, hs, hr, -⟩ := run_cons_some a rest s s1 tr h
    have hta := (step_mono a s sa ev1 hs hi).2.1
    refine ih sa s1 ev2 hr (step_Inv a s sa ev1 hs hi) ?_
    rw [hta]
    cases a with
    | ThreadAvailable t c =>
      simp only [step, Option.some.injEq, Prod.mk.injEq] at hs
      obtain ⟨rfl, -⟩ := hs
      rcases ThreadAvailableIter_cases t c s with ⟨e, -, -⟩ | ⟨-, ht, -, -, e⟩ |
        ⟨-, ht, -, -, e⟩
      · rw [e]; exact hle
      · rw [e]
        simp only [HasScanToken, decide_eq_true_eq] at ht
        exact ht
      · rw [e]
        simp only [HasScanToken, decide_eq_true_eq] at ht
        exact ht
    | Scanner i r =>
      simp only [step] at hs
      split at hs
      · exact absurd hs (by simp)
      · rename_i w hw
        split at hs
        · exact absurd hs (by simp)
        · rename_i s2 w1 ev3 hrun
          simp only [Option.some.injEq, Prod.mk.injEq] at hs
          obtain ⟨rfl, -⟩ := hs
          rcases RunScannerThread_idx i r s s2 w w1 ev3 hrun with e | ⟨ht, e⟩
          · simp only [e]; exact hle
          · simp only [e]
            simp only [HasScanToken, decide_eq_true_eq] at ht
            exact ht
    | GetNext pre =>
      simp only [step] at hs
      split at hs
      · exact absurd hs (by simp)
      · rename_i s2 res ev3 hg
        simp only [Option.some.injEq, Prod.mk.injEq] at hs
        obtain ⟨rfl, -⟩ := hs
        rw [(GetNext_frame pre s s2 res ev3 hg).2.2.2.2.2.1]
        exact hle
    | SetDone =>
      simp only [step, Option.some.injEq, Prod.mk.injEq] at hs
      obtain ⟨rfl, -⟩ := hs
      simp only [SetDoneInternal]
      split <;> exact hle

/-- C4: dispatch exactness. Take any run from a node with `K` scan tokens in which no
thread start and no scanner call fails and the consumer never calls `SetDone`. If
`done_` is set at the end (which only the last thread's exit can have done), then the
token claims of the run are exactly the tokens `0, …, K - 1`, in order: every token
has been claimed exactly once, each by one started thread, and none is left. -/
theorem dispatch_exactness (tokens : List Nat) (limit max_threads : Int) (capacity : Nat)
    (sched : List Action) (s : KuduScanNode) (tr : List Event)
    (hrun : run sched (initial tokens limit max_threads capacity) = some (s, tr))
    (hne : ∀ e ∈ tr, e.isError = false) (hsd : Event.SetDone ∉ tr)
    (hdone : s.done_ = true) :
    s.next_scan_token_idx_ = tokens.length ∧
    (claimedTokens tr).map Prod.fst = List.range tokens.length ∧
    (∀ k, k < tokens.length → ((claimedTokens tr).map Prod.fst).count k = 1) ∧
    (∀ k, k < tokens.length → ∃ i, (k, i) ∈ claimedTokens tr ∧
      ∀ j, (k, j) ∈ claimedTokens tr → j = i) ∧
    (∀ c ∈ claimedTokens tr, c.2 < s.scanner_threads.length) := by
  have hi0 := Inv_initial tokens limit max_threads capacity
  have hdi := run_DispatchInv sched _ s tr hrun hi0
    (DispatchInv_initial tokens limit max_threads capacity) hne hsd
  obtain ⟨-, m2, -⟩ := run_mono sched _ s tr hrun hi0
  obtain ⟨-, c2, c3⟩ := run_claims sched _ s tr hrun hi0
  have htok : s.scan_tokens = tokens := by simpa [initial] using m2
  have hex := hdi.done_exhausted hdone
  simp only [HasScanToken, decide_eq_false_iff_not, htok] at hex
  have hle := run_idx_le sched _ s tr hrun hi0 (by simp [initial])
  rw [htok] at hle
  have hidx : s.next_scan_token_idx_ = tokens.length := by omega
  have hmap : (claimedTokens tr).map Prod.fst = List.range tokens.length := by
    rw [c2, hidx]
    simp [initial, List.range_eq_range']
  have hcount : ∀ k, k < tokens.length →
      ((claimedTokens tr).map Prod.fst).count k = 1 := by
    intro k hk
    rw [hmap]
    exact List.count_eq_one_of_mem (List.nodup_range _) (List.mem_range.2 hk)
  refine ⟨hidx, hmap, hcount, ?_, c3 hne⟩
  intro k hk
  have hmem : k ∈ (claimedTokens tr).map Prod.fst := by
    rw [hmap]; exact List.mem_range.2 hk
  obtain ⟨c, hc, hck⟩ := List.mem_map.1 hmem
  refine ⟨c.2, by rw [← hck]; exact hc, ?_⟩
  intro j hj
  by_contra hjne
  -- two different claims of token `k` would make its count at least two
  have hnd : ((claimedTokens tr).map Prod.fst).Nodup := by
    rw [hmap]; exact List.nodup_range _
  have hinj := List.inj_on_of_nodup_map hnd hj hc (by rw [hck])
  apply hjne
  rw [← hinj]

theorem twoThreads_run :
    run twoThreads_schedule (initial [0, 1] 0 2 4) =
      some (twoThreads_final, twoThreads_trace) :=
  rfl

/-- Witness for C4: two tokens and two threads; the run ends with `done_` set by the
last exit, token 0 claimed by thread 0 and token 1 by thread 1. -/
theorem dispatch_exactness_witness :
    twoThreads_final.done_ = true ∧ claimedTokens twoThreads_trace = [(0, 0), (1, 1)] ∧
    twoThreads_final.next_scan_token_idx_ = 2 ∧
    (claimedTokens twoThreads_trace).map Prod.fst = List.range 2 :=
  ⟨rfl, by decide,
    (dispatch_exactness [0, 1] 0 2 4 twoThreads_schedule twoThreads_final twoThreads_trace
      twoThreads_run (by decide) (by decide) rfl).1,
    (dispatch_exactness [0, 1] 0 2 4 twoThreads_schedule twoThreads_final twoThreads_trace
      twoThreads_run (by decide) (by decide) rfl).2.1⟩

/-- Witness for C1, scenario D: limit 10 and two buffered batches of seven rows. The
first call hands back seven rows without end of stream; the calls up to end of stream
hand back ten rows in all, the second one three rows with end of stream. -/
theorem GetNext_limit_trimming_witness :
    (run scenarioD_schedule (initial [0] 10 1 4)).map Prod.fst = some scenarioD ∧
    (GetNext .OK scenarioD).map (fun x => x.2.1) = some ⟨.OK, some false, some batch7⟩ ∧
    pull 2 scenarioD =
      some [⟨.OK, some false, some batch7⟩, ⟨.OK, some true, some ⟨[1, 2, 3]⟩⟩] ∧
    (((pull 2 scenarioD).getD []).map GetNextResult.num_rows).sum = 10 ∧
    ∃ outs last, pull 2 scenarioD = some (outs ++ [last]) ∧
      (∀ o ∈ outs, o.eos = some false) ∧ last.eos = some true ∧
      ((outs ++ [last]).map GetNextResult.num_rows).sum = 10 - 0 :=
  ⟨rfl,
    by
      rw [(GetNext_limit_trimming scenarioD batch7 [batch7] 10 0 rfl rfl (by decide)
        (by decide) rfl (by decide) (by decide) (by decide)).2.1 (by decide)]
      rfl,
    rfl, by decide,
    (GetNext_limit_trimming scenarioD batch7 [batch7] 10 0 rfl rfl (by decide)
      (by decide) rfl (by decide) (by decide) (by decide)).2.2
        (by decide) (by decide) (by decide)⟩

end KuduScan
